import Mathlib

/-!
Verification of the cosine/exponential fusion passes of
src/src/compilers/metal/fp16/other.rs (MetalCosCompiler, MetalExpCompiler).

The graph rewrite core is shallowly embedded: node ids are naturals,
operator payloads are a closed tagged variant, edges carry a destination
input slot and an opaque shape descriptor.  The pattern predicates, the
protection checks, the rewrite steps and their order are translated from
the Rust source.  The matcher, the graph mutation API and the reference
bookkeeping helpers are not part of the given source tree; they are
modelled from the specification (sections 3, 4.1, 4.2, 4.3, 6) as noted
on each definition.  A Rust panic (unwrap of None) is modelled by the
compile functions returning none.
-/

/-- Bit pattern of the f16 value -1.0 (half crate f16::NEG_ONE).  Only
equality and distinctness of the three constant payloads matter to the
passes, never their numeric meaning. -/
def f16NegOne : Nat := 0xBC00

/-- Bit pattern of the f16 value pi / 2, the payload the cos pattern
requires on the add-side constant. -/
def f16PiOverTwo : Nat := 0x3E48

/-- Bit pattern of the f16 value 1 / ln 2, the payload the exp pattern
requires on the mul-side constant. -/
def f16OneOverLnTwo : Nat := 0x3DC5

/-- Operator payload of a node: a closed tagged variant of the operator
kinds the two passes inspect or create.  MetalCos and MetalExp record the
device they were built with (the Rust values hold a pipeline compiled for
that device); the remaining Metal operator payloads are irrelevant to the
passes, which only test their dynamic type, so they are bare tags.  Any
other operator is an opaque tag. -/
inductive Op where
  | metalConstantF16 (bits : Nat)
  | metalMul
  | metalAdd
  | metalSin
  | metalExp2
  | metalCos (dev : Nat)
  | metalExp (dev : Nat)
  | other (tag : Nat)
deriving DecidableEq

/-- Directed data edge: source node, destination node, destination input
slot, shape descriptor (opaque). -/
structure Edge where
  src : Nat
  dst : Nat
  slot : Nat
  shape : Nat
deriving DecidableEq

/-- The graph state a pass mutates: nodes with payloads, data edges, the
protected set no_delete, the retrieval set to_retrieve, the identity
remap table, and the id the next added node receives. -/
structure Graph where
  nodes : List (Nat × Op)
  edges : List Edge
  no_delete : List Nat
  to_retrieve : List Nat
  id_remap : List (Nat × Nat)
  next_id : Nat
deriving DecidableEq

/-- Boolean membership of a natural in a list. -/
def memb (x : Nat) (l : List Nat) : Bool := l.any (fun y => x == y)

/-- Payload of the node with a given id, if it is present. -/
def lookupOp (g : Graph) (i : Nat) : Option Op :=
  (g.nodes.find? (fun p => p.1 == i)).map Prod.snd

/-- Dynamic type test used by the pattern: SelectOp::new().ty::<MetalMul<f16>>(). -/
def Op.isMulOp : Op → Bool
  | .metalMul => true
  | _ => false

/-- Dynamic type test for MetalAdd. -/
def Op.isAddOp : Op → Bool
  | .metalAdd => true
  | _ => false

/-- Dynamic type test for MetalSin. -/
def Op.isSinOp : Op → Bool
  | .metalSin => true
  | _ => false

/-- Dynamic type test for MetalExp2. -/
def Op.isExp2Op : Op → Bool
  | .metalExp2 => true
  | _ => false

/-- The node with id i exists and its payload passes the test. -/
def isTy (g : Graph) (i : Nat) (t : Op → Bool) : Bool :=
  match lookupOp g i with
  | some o => t o
  | none => false

/-- The constant predicate of the patterns: the node downcasts to
MetalConstant of f16 and its payload equals the given bit pattern
exactly (the Rust check c.0 == constant, exact f16 equality). -/
def isConstBits (g : Graph) (i : Nat) (bits : Nat) : Bool :=
  match lookupOp g i with
  | some (.metalConstantF16 b) => b == bits
  | _ => false

/-- Capture variables of the cos pattern
sin(add(mul(x, const_neg_one), const_pi)). -/
structure CosBinding where
  const_neg_one : Nat
  const_pi : Nat
  mul : Nat
  add : Nat
  sin : Nat
  x : Nat
deriving DecidableEq

/-- Modelled from the spec: the matcher (section 4.1) enumerates directed
edges recursively along the nested edge pattern, short-circuiting on a
failed predicate.  The predicates and the pattern shape are translated
from the SelectEdge tree of MetalCosCompiler::compile: edges
const_neg_one to mul, x to mul, mul to add, const_pi to add, add to sin,
with x unconstrained. -/
def cosBindings (g : Graph) : List CosBinding :=
  g.edges.flatMap (fun eAddSin =>
    if isTy g eAddSin.dst Op.isSinOp && isTy g eAddSin.src Op.isAddOp then
      g.edges.flatMap (fun ePiAdd =>
        if (ePiAdd.dst == eAddSin.src) && isConstBits g ePiAdd.src f16PiOverTwo then
          g.edges.flatMap (fun eMulAdd =>
            if (eMulAdd.dst == eAddSin.src) && isTy g eMulAdd.src Op.isMulOp then
              g.edges.flatMap (fun eNegMul =>
                if (eNegMul.dst == eMulAdd.src) && isConstBits g eNegMul.src f16NegOne then
                  g.edges.flatMap (fun eXMul =>
                    if (eXMul.dst == eMulAdd.src) && (lookupOp g eXMul.src).isSome then
                      [⟨eNegMul.src, ePiAdd.src, eMulAdd.src, eAddSin.src,
                        eAddSin.dst, eXMul.src⟩]
                    else [])
                else [])
            else [])
        else [])
    else [])

/-- The protection check of the cos pass, translated from the source:
only const_neg_one, const_pi, mul and add are tested against no_delete;
sin is not tested. -/
def cosProtected (g : Graph) (b : CosBinding) : Bool :=
  memb b.const_neg_one g.no_delete || memb b.const_pi g.no_delete ||
  memb b.mul g.no_delete || memb b.add g.no_delete

/-- First binding of the cos pattern that passes the protection check
(a protected binding is skipped and the next candidate is considered). -/
def cosFirstMatch (g : Graph) : Option CosBinding :=
  (cosBindings g).find? (fun b => !(cosProtected g b))

/-- Shape taken from the first incoming data edge of mul, translated from
edges_directed(mul, Incoming).find_map(as_data).unwrap().2; none models
the panic of that unwrap. -/
def mulInputShape (g : Graph) (mul : Nat) : Option Nat :=
  (g.edges.find? (fun e => e.dst == mul)).map (fun e => e.shape)

/-- Modelled from the spec: graph mutation API, add node with payload,
returning the fresh id next_id (section 6). -/
def addNode (g : Graph) (o : Op) : Graph :=
  { g with nodes := g.nodes ++ [(g.next_id, o)], next_id := g.next_id + 1 }

/-- Modelled from the spec: graph mutation API, add edge (section 6). -/
def addEdge (g : Graph) (e : Edge) : Graph :=
  { g with edges := g.edges ++ [e] }

/-- Modelled from the spec: redirection step of move_outgoing_edge
(section 4.2 step 3): every edge originating at old now originates at
new, preserving destination, slot and shape. -/
def moveOutgoingEdge (old new : Nat) (g : Graph) : Graph :=
  { g with edges := g.edges.map (fun e =>
      if e.src == old then { e with src := new } else e) }

/-- Modelled from the spec: reference carry-forward of move_references
(section 4.2 step 4): every occurrence of old in the protected set, the
retrieval set and the identity remap table is replaced by new. -/
def moveReferences (old new : Nat) (g : Graph) : Graph :=
  { g with
    no_delete := g.no_delete.map (fun i => if i == old then new else i),
    to_retrieve := g.to_retrieve.map (fun i => if i == old then new else i),
    id_remap := g.id_remap.map (fun p =>
      (if p.1 == old then new else p.1, if p.2 == old then new else p.2)) }

/-- Modelled from the spec: graph mutation API, remove node; the node and
every edge incident to it are removed together (sections 3 and 6,
petgraph remove_node). -/
def removeNode (i : Nat) (g : Graph) : Graph :=
  { g with
    nodes := g.nodes.filter (fun p => p.1 != i),
    edges := g.edges.filter (fun e => e.src != i && e.dst != i) }

/-- One rewrite of the cos pass on one binding, translated step for step
from the loop body of MetalCosCompiler::compile: insert the MetalCos node
with input edge from x in slot 0 carrying the shape of the first incoming
edge of mul, redirect the outgoing edges of sin, carry the references of
sin forward, then remove mul, add, const_neg_one, const_pi and sin in
that order.  none models the panic of the shape unwrap. -/
def applyCos (dev : Nat) (g : Graph) (b : CosBinding) : Option Graph :=
  match mulInputShape g b.mul with
  | none => none
  | some sh =>
    let cosId := g.next_id
    let g1 := addNode g (.metalCos dev)
    let g2 := addEdge g1 ⟨b.x, cosId, 0, sh⟩
    let g3 := moveOutgoingEdge b.sin cosId g2
    let g4 := moveReferences b.sin cosId g3
    some (removeNode b.sin (removeNode b.const_pi (removeNode b.const_neg_one
      (removeNode b.add (removeNode b.mul g4)))))

/-- Modelled from the spec: pass orchestration (section 4.3) with the
matcher re-invoked after every successful rewrite, so each processed
binding is drawn from the current graph; fuel bounds the iteration count
(each rewrite strictly shrinks the node list). -/
def cosLoop (dev : Nat) : Nat → Graph → Option Graph
  | 0, g => some g
  | fuel + 1, g =>
    match cosFirstMatch g with
    | none => some g
    | some b =>
      match applyCos dev g b with
      | none => none
      | some g2 => cosLoop dev fuel g2

/-- MetalCosCompiler::compile.  The ambient argument models the result of
Device::system_default(): the pass reads it from the environment, not
from an explicit device parameter, and unwraps it (none means the unwrap
panics before any matching). -/
def cosCompile (ambient : Option Nat) (g : Graph) : Option Graph :=
  match ambient with
  | none => none
  | some dev => cosLoop dev g.nodes.length g

/-- Capture variables of the exp pattern exp2(mul(x, const)). -/
structure ExpBinding where
  constant : Nat
  mul : Nat
  exp2 : Nat
deriving DecidableEq

/-- Modelled from the spec: the matcher run on the SelectEdge tree of
MetalExpCompiler::compile: edges constant to mul and mul to exp2, with
the constant payload exactly f16 of 1 / ln 2. -/
def expBindings (g : Graph) : List ExpBinding :=
  g.edges.flatMap (fun eMulExp =>
    if isTy g eMulExp.dst Op.isExp2Op && isTy g eMulExp.src Op.isMulOp then
      g.edges.flatMap (fun eConstMul =>
        if (eConstMul.dst == eMulExp.src) &&
            isConstBits g eConstMul.src f16OneOverLnTwo then
          [⟨eConstMul.src, eMulExp.src, eMulExp.dst⟩]
        else [])
    else [])

/-- The protection check of the exp pass, translated from the source:
constant, mul and exp2 are all tested against no_delete. -/
def expProtected (g : Graph) (b : ExpBinding) : Bool :=
  memb b.constant g.no_delete || memb b.mul g.no_delete ||
  memb b.exp2 g.no_delete

/-- First binding of the exp pattern passing the protection check. -/
def expFirstMatch (g : Graph) : Option ExpBinding :=
  (expBindings g).find? (fun b => !(expProtected g b))

/-- Sources of the incoming edges of a node together with the edge shapes,
modelled from the spec graph query API (section 6), list order. -/
def getSources (g : Graph) (n : Nat) : List (Nat × Nat) :=
  (g.edges.filter (fun e => e.dst == n)).map (fun e => (e.src, e.shape))

/-- One rewrite of the exp pass on one binding, translated step for step
from the loop body of MetalExpCompiler::compile: find a source of mul
distinct from the constant (none models the panic of that unwrap),
insert the MetalExp node fed by it, redirect the outgoing edges of exp2,
carry the references of exp2 forward, then remove mul, constant and exp2
in that order. -/
def applyExp (dev : Nat) (g : Graph) (b : ExpBinding) : Option Graph :=
  match (getSources g b.mul).find? (fun p => p.1 != b.constant) with
  | none => none
  | some src =>
    let expId := g.next_id
    let g1 := addNode g (.metalExp dev)
    let g2 := addEdge g1 ⟨src.1, expId, 0, src.2⟩
    let g3 := moveOutgoingEdge b.exp2 expId g2
    let g4 := moveReferences b.exp2 expId g3
    some (removeNode b.exp2 (removeNode b.constant (removeNode b.mul g4)))

/-- Modelled from the spec: pass orchestration of the exp pass, matcher
re-invoked after every successful rewrite, fuel-bounded. -/
def expLoop (dev : Nat) : Nat → Graph → Option Graph
  | 0, g => some g
  | fuel + 1, g =>
    match expFirstMatch g with
    | none => some g
    | some b =>
      match applyExp dev g b with
      | none => none
      | some g2 => expLoop dev fuel g2

/-- MetalExpCompiler::compile, with the ambient system-default device
modelled as for cosCompile. -/
def expCompile (ambient : Option Nat) (g : Graph) : Option Graph :=
  match ambient with
  | none => none
  | some dev => expLoop dev g.nodes.length g

/-- The (destination, slot, shape) triple of an edge. -/
def edgeTriple (e : Edge) : Nat × Nat × Nat := (e.dst, e.slot, e.shape)

/-- Outgoing edges of node n in an edge list, as triples, in list order. -/
def outgoingOf (l : List Edge) (n : Nat) : List (Nat × Nat × Nat) :=
  (l.filter (fun e => e.src == n)).map edgeTriple

/-- Outgoing edges of a node as (destination, slot, shape) triples, in
edge-list order. -/
def outgoingTriples (g : Graph) (n : Nat) : List (Nat × Nat × Nat) :=
  outgoingOf g.edges n

/-- The edge map performed by moveOutgoingEdge on one edge. -/
def renameSrc (old nw : Nat) (e : Edge) : Edge :=
  if e.src == old then { e with src := nw } else e

/-- An edge survives the deletion of the nodes in del exactly when
neither endpoint is in del. -/
def keepEdge (del : List Nat) (e : Edge) : Bool :=
  !(memb e.src del) && !(memb e.dst del)

/-- The id occurs somewhere in the remap table, as a key or as a value. -/
def occursInRemap (i : Nat) (r : List (Nat × Nat)) : Bool :=
  r.any (fun p => p.1 == i || p.2 == i)

/-- Scenario A family: sin(add(mul(x, const_neg_one), const_pi)) with two
downstream consumers of sin.  Node ids: x = 0, const_neg_one = 1,
const_pi = 2, mul = 3, add = 4, sin = 5, consumers 6 and 7.  The payload
tag of x, the consumer tags, all slots and all shapes are parameters. -/
def scenarioA (t u1 u2 shx shc1 shm shc2 sha s1 s2 h1 h2 : Nat)
    (nd : List Nat) : Graph :=
  { nodes := [(0, .other t), (1, .metalConstantF16 f16NegOne),
              (2, .metalConstantF16 f16PiOverTwo), (3, .metalMul),
              (4, .metalAdd), (5, .metalSin), (6, .other u1), (7, .other u2)],
    edges := [⟨0, 3, 0, shx⟩, ⟨1, 3, 1, shc1⟩, ⟨3, 4, 0, shm⟩,
              ⟨2, 4, 1, shc2⟩, ⟨4, 5, 0, sha⟩, ⟨5, 6, s1, h1⟩, ⟨5, 7, s2, h2⟩],
    no_delete := nd,
    to_retrieve := [],
    id_remap := [],
    next_id := 8 }

/-- Scenario B family: exp2(mul(x, const)) with two downstream consumers
of exp2.  Node ids: x = 0, constant = 1, mul = 2, exp2 = 3, consumers 4
and 5. -/
def scenarioB (t u1 u2 shx shc shm s1 s2 h1 h2 : Nat)
    (nd : List Nat) : Graph :=
  { nodes := [(0, .other t), (1, .metalConstantF16 f16OneOverLnTwo),
              (2, .metalMul), (3, .metalExp2), (4, .other u1), (5, .other u2)],
    edges := [⟨0, 2, 0, shx⟩, ⟨1, 2, 1, shc⟩, ⟨2, 3, 0, shm⟩,
              ⟨3, 4, s1, h1⟩, ⟨3, 5, s2, h2⟩],
    no_delete := nd,
    to_retrieve := [],
    id_remap := [],
    next_id := 6 }

/-- Value of the MetalCos operator type: a compiled pipeline and the
device it was compiled for, as in the Rust struct MetalCos. -/
structure MetalCosVal where
  pipeline : Nat
  device : Nat

/-- Value of the MetalExp operator type. -/
structure MetalExpVal where
  pipeline : Nat
  device : Nat

/-- The PartialEq implementation for MetalCos, translated from the
source: eq ignores both arguments and returns false. -/
def metalCosEq (_a _b : MetalCosVal) : Bool := false

/-- The PartialEq implementation for MetalExp, translated from the
source: eq ignores both arguments and returns false. -/
def metalExpEq (_a _b : MetalExpVal) : Bool := false

/-- Graph for claim C10: exp2(mul(c, c)) where both input edges of mul
originate at the same constant node c with payload f16 of 1 / ln 2,
plus one downstream consumer of exp2. -/
def gSharedConst : Graph :=
  { nodes := [(0, .metalConstantF16 f16OneOverLnTwo), (1, .metalMul),
              (2, .metalExp2), (3, .other 0)],
    edges := [⟨0, 1, 0, 0⟩, ⟨0, 1, 1, 0⟩, ⟨1, 2, 0, 0⟩, ⟨2, 3, 0, 0⟩],
    no_delete := [], to_retrieve := [], id_remap := [], next_id := 4 }

/-- Erase the device recorded in MetalCos and MetalExp payloads, leaving
every other payload unchanged; used to state which part of a pass result
depends on the ambient device. -/
def stripDevice : Op → Op
  | .metalCos _ => .metalCos 0
  | .metalExp _ => .metalExp 0
  | o => o

/-- Erase the devices from every node payload of a graph. -/
def stripGraph (g : Graph) : Graph :=
  { g with nodes := g.nodes.map (fun p => (p.1, stripDevice p.2)) }

/-! Helper lemmas: node lookups and binding soundness. -/

theorem isTy_lookup {g : Graph} {i : Nat} {t : Op → Bool} (h : isTy g i t = true) :
    ∃ o, lookupOp g i = some o ∧ t o = true := by
  unfold isTy at h
  cases hl : lookupOp g i with
  | none => rw [hl] at h; cases h
  | some o => rw [hl] at h; exact ⟨o, rfl, h⟩

theorem isConstBits_lookup {g : Graph} {i bits : Nat}
    (h : isConstBits g i bits = true) :
    lookupOp g i = some (.metalConstantF16 bits) := by
  unfold isConstBits at h
  cases hl : lookupOp g i with
  | none => rw [hl] at h; cases h
  | some o =>
    rw [hl] at h
    cases o with
    | metalConstantF16 b =>
      have : b = bits := by simpa using h
      rw [this]
    | metalMul => cases h
    | metalAdd => cases h
    | metalSin => cases h
    | metalExp2 => cases h
    | metalCos d => cases h
    | metalExp d => cases h
    | other t => cases h

theorem lookupOp_mem {g : Graph} {i : Nat} {o : Op}
    (h : lookupOp g i = some o) : (i, o) ∈ g.nodes := by
  unfold lookupOp at h
  cases hf : g.nodes.find? (fun p => p.1 == i) with
  | none => rw [hf] at h; cases h
  | some p =>
    rw [hf] at h
    have hp : p ∈ g.nodes := List.mem_of_find?_eq_some hf
    have hk := List.find?_some hf
    have h1 : p.1 = i := by simpa using hk
    have h2 : p.2 = o := by simpa using h
    have : p = (i, o) := by
      cases p; simp_all
    rwa [this] at hp

theorem lookup_ne {g : Graph} {i j : Nat} {oi oj : Op}
    (hi : lookupOp g i = some oi) (hj : lookupOp g j = some oj)
    (hne : oi ≠ oj) : i ≠ j := by
  intro e
  subst e
  rw [hi] at hj
  exact hne (Option.some.inj hj)

theorem isSinOp_eq {o : Op} (h : o.isSinOp = true) : o = .metalSin := by
  cases o <;> first | rfl | cases h

theorem isAddOp_eq {o : Op} (h : o.isAddOp = true) : o = .metalAdd := by
  cases o <;> first | rfl | cases h

theorem isMulOp_eq {o : Op} (h : o.isMulOp = true) : o = .metalMul := by
  cases o <;> first | rfl | cases h

theorem isExp2Op_eq {o : Op} (h : o.isExp2Op = true) : o = .metalExp2 := by
  cases o <;> first | rfl | cases h

theorem cosBindings_sound {g : Graph} {b : CosBinding} (h : b ∈ cosBindings g) :
    isTy g b.sin Op.isSinOp = true ∧ isTy g b.add Op.isAddOp = true ∧
    isTy g b.mul Op.isMulOp = true ∧
    isConstBits g b.const_neg_one f16NegOne = true ∧
    isConstBits g b.const_pi f16PiOverTwo = true ∧
    (lookupOp g b.x).isSome = true := by
  unfold cosBindings at h
  obtain ⟨e5, -, h⟩ := List.mem_flatMap.1 h
  split at h
  case isFalse => cases h
  case isTrue h5 =>
  obtain ⟨e4, -, h⟩ := List.mem_flatMap.1 h
  split at h
  case isFalse => cases h
  case isTrue h4 =>
  obtain ⟨e3, -, h⟩ := List.mem_flatMap.1 h
  split at h
  case isFalse => cases h
  case isTrue h3 =>
  obtain ⟨e2, -, h⟩ := List.mem_flatMap.1 h
  split at h
  case isFalse => cases h
  case isTrue h2 =>
  obtain ⟨e1, -, h⟩ := List.mem_flatMap.1 h
  split at h
  case isFalse => cases h
  case isTrue h1 =>
  have hb : b = ⟨e2.src, e4.src, e3.src, e5.src, e5.dst, e1.src⟩ := by
    simpa using h
  subst hb
  rw [Bool.and_eq_true] at h5 h4 h3 h2 h1
  obtain ⟨h5a, h5b⟩ := h5
  obtain ⟨h4a, h4b⟩ := h4
  obtain ⟨h3a, h3b⟩ := h3
  obtain ⟨h2a, h2b⟩ := h2
  obtain ⟨h1a, h1b⟩ := h1
  exact ⟨h5a, h5b, h3b, h2b, h4b, h1b⟩

theorem expBindings_sound {g : Graph} {b : ExpBinding} (h : b ∈ expBindings g) :
    isTy g b.exp2 Op.isExp2Op = true ∧ isTy g b.mul Op.isMulOp = true ∧
    isConstBits g b.constant f16OneOverLnTwo = true := by
  unfold expBindings at h
  obtain ⟨e2, -, h⟩ := List.mem_flatMap.1 h
  split at h
  case isFalse => cases h
  case isTrue h2 =>
  obtain ⟨e1, -, h⟩ := List.mem_flatMap.1 h
  split at h
  case isFalse => cases h
  case isTrue h1 =>
  have hb : b = ⟨e1.src, e2.src, e2.dst⟩ := by simpa using h
  subst hb
  rw [Bool.and_eq_true] at h2 h1
  obtain ⟨h2a, h2b⟩ := h2
  obtain ⟨h1a, h1b⟩ := h1
  exact ⟨h2a, h2b, h1b⟩

/-! Helper lemmas: node counting across one rewrite. -/

theorem length_filter_lt {α : Type} (p : α → Bool) {a : α} {l : List α}
    (ha : a ∈ l) (hpa : p a = false) : (l.filter p).length < l.length := by
  induction l with
  | nil => cases ha
  | cons x t ih =>
    rcases List.mem_cons.1 ha with h | h
    · subst h
      rw [List.filter_cons, hpa]
      exact Nat.lt_succ_of_le (List.length_filter_le p t)
    · rw [List.filter_cons]
      split
      · exact Nat.succ_lt_succ (ih h)
      · exact Nat.lt_succ_of_lt (ih h)

theorem mem_filter_of_ne {l : List (Nat × Op)} {q : Nat × Op} {i : Nat}
    (hq : q ∈ l) (hne : q.1 ≠ i) :
    q ∈ l.filter (fun p => p.1 != i) := by
  exact List.mem_filter.2 ⟨hq, by simpa using hne⟩

theorem applyCos_some {dev : Nat} {g : Graph} {b : CosBinding} {g2 : Graph}
    (h : applyCos dev g b = some g2) :
    ∃ sh, mulInputShape g b.mul = some sh ∧
      g2 = removeNode b.sin (removeNode b.const_pi (removeNode b.const_neg_one
        (removeNode b.add (removeNode b.mul (moveReferences b.sin g.next_id
          (moveOutgoingEdge b.sin g.next_id (addEdge (addNode g (.metalCos dev))
            ⟨b.x, g.next_id, 0, sh⟩))))))) := by
  unfold applyCos at h
  cases hm : mulInputShape g b.mul with
  | none => rw [hm] at h; cases h
  | some sh =>
    rw [hm] at h
    exact ⟨sh, rfl, (Option.some.inj h).symm⟩

theorem applyExp_some {dev : Nat} {g : Graph} {b : ExpBinding} {g2 : Graph}
    (h : applyExp dev g b = some g2) :
    ∃ s, (getSources g b.mul).find? (fun p => p.1 != b.constant) = some s ∧
      g2 = removeNode b.exp2 (removeNode b.constant (removeNode b.mul
        (moveReferences b.exp2 g.next_id (moveOutgoingEdge b.exp2 g.next_id
          (addEdge (addNode g (.metalExp dev)) ⟨s.1, g.next_id, 0, s.2⟩))))) := by
  unfold applyExp at h
  cases hm : (getSources g b.mul).find? (fun p => p.1 != b.constant) with
  | none => rw [hm] at h; cases h
  | some s =>
    rw [hm] at h
    exact ⟨s, rfl, (Option.some.inj h).symm⟩

theorem applyCos_length {dev : Nat} {g : Graph} {b : CosBinding} {g2 : Graph}
    (hb : b ∈ cosBindings g) (h : applyCos dev g b = some g2) :
    g2.nodes.length < g.nodes.length := by
  obtain ⟨hsin, hadd, hmul, hneg, hpi, -⟩ := cosBindings_sound hb
  obtain ⟨osin, hlsin, hosin⟩ := isTy_lookup hsin
  obtain ⟨oadd, hladd, hoadd⟩ := isTy_lookup hadd
  obtain ⟨omul, hlmul, homul⟩ := isTy_lookup hmul
  have hlneg := isConstBits_lookup hneg
  have hlpi := isConstBits_lookup hpi
  rw [isSinOp_eq hosin] at hlsin
  rw [isAddOp_eq hoadd] at hladd
  rw [isMulOp_eq homul] at hlmul
  have h_sin_mul : b.sin ≠ b.mul := lookup_ne hlsin hlmul (by simp)
  have h_sin_add : b.sin ≠ b.add := lookup_ne hlsin hladd (by simp)
  have h_sin_neg : b.sin ≠ b.const_neg_one := lookup_ne hlsin hlneg (by simp)
  have h_sin_pi : b.sin ≠ b.const_pi := lookup_ne hlsin hlpi (by simp)
  have h_add_mul : b.add ≠ b.mul := lookup_ne hladd hlmul (by simp)
  obtain ⟨sh, -, hg2⟩ := applyCos_some h
  have hnodes : g2.nodes =
      (((((g.nodes ++ [(g.next_id, Op.metalCos dev)]).filter
        (fun p => p.1 != b.mul)).filter (fun p => p.1 != b.add)).filter
        (fun p => p.1 != b.const_neg_one)).filter
        (fun p => p.1 != b.const_pi)).filter (fun p => p.1 != b.sin) := by
    rw [hg2]; rfl
  rw [hnodes]
  rw [List.filter_append, List.filter_append, List.filter_append,
      List.filter_append, List.filter_append, List.length_append]
  have hmemadd : (b.add, Op.metalAdd) ∈ g.nodes := lookupOp_mem hladd
  have hmemsin : (b.sin, Op.metalSin) ∈ g.nodes := lookupOp_mem hlsin
  have hTail : ((((([(g.next_id, Op.metalCos dev)].filter
      (fun p => p.1 != b.mul)).filter (fun p => p.1 != b.add)).filter
      (fun p => p.1 != b.const_neg_one)).filter
      (fun p => p.1 != b.const_pi)).filter (fun p => p.1 != b.sin)).length ≤ 1 := by
    refine le_trans (List.length_filter_le _ _) ?_
    refine le_trans (List.length_filter_le _ _) ?_
    refine le_trans (List.length_filter_le _ _) ?_
    refine le_trans (List.length_filter_le _ _) ?_
    exact List.length_filter_le _ _
  set L1 := g.nodes.filter (fun p => p.1 != b.mul) with hL1
  set L2 := L1.filter (fun p => p.1 != b.add) with hL2
  set L3 := L2.filter (fun p => p.1 != b.const_neg_one) with hL3
  set L4 := L3.filter (fun p => p.1 != b.const_pi) with hL4
  set L5 := L4.filter (fun p => p.1 != b.sin) with hL5
  have hA : L1.length ≤ g.nodes.length := List.length_filter_le _ _
  have haddA : (b.add, Op.metalAdd) ∈ L1 := mem_filter_of_ne hmemadd h_add_mul
  have hB : L2.length < L1.length := length_filter_lt _ haddA (by simp)
  have hsin2 : (b.sin, Op.metalSin) ∈ L2 :=
    mem_filter_of_ne (mem_filter_of_ne hmemsin h_sin_mul) h_sin_add
  have hsin4 : (b.sin, Op.metalSin) ∈ L4 :=
    mem_filter_of_ne (mem_filter_of_ne hsin2 h_sin_neg) h_sin_pi
  have hC : L3.length ≤ L2.length := List.length_filter_le _ _
  have hD : L4.length ≤ L3.length := List.length_filter_le _ _
  have hE : L5.length < L4.length := length_filter_lt _ hsin4 (by simp)
  omega

theorem applyExp_length {dev : Nat} {g : Graph} {b : ExpBinding} {g2 : Graph}
    (hb : b ∈ expBindings g) (h : applyExp dev g b = some g2) :
    g2.nodes.length < g.nodes.length := by
  obtain ⟨hexp2, hmul, hconst⟩ := expBindings_sound hb
  obtain ⟨oexp, hlexp, hoexp⟩ := isTy_lookup hexp2
  obtain ⟨omul, hlmul, homul⟩ := isTy_lookup hmul
  have hlconst := isConstBits_lookup hconst
  rw [isExp2Op_eq hoexp] at hlexp
  rw [isMulOp_eq homul] at hlmul
  have h_exp_mul : b.exp2 ≠ b.mul := lookup_ne hlexp hlmul (by simp)
  have h_exp_const : b.exp2 ≠ b.constant := lookup_ne hlexp hlconst (by simp)
  obtain ⟨s, -, hg2⟩ := applyExp_some h
  have hnodes : g2.nodes =
      (((g.nodes ++ [(g.next_id, Op.metalExp dev)]).filter
        (fun p => p.1 != b.mul)).filter
        (fun p => p.1 != b.constant)).filter (fun p => p.1 != b.exp2) := by
    rw [hg2]; rfl
  rw [hnodes]
  rw [List.filter_append, List.filter_append, List.filter_append,
      List.length_append]
  have hmemmul : (b.mul, Op.metalMul) ∈ g.nodes := lookupOp_mem hlmul
  have hmemexp : (b.exp2, Op.metalExp2) ∈ g.nodes := lookupOp_mem hlexp
  have hTail : ((([(g.next_id, Op.metalExp dev)].filter
      (fun p => p.1 != b.mul)).filter
      (fun p => p.1 != b.constant)).filter (fun p => p.1 != b.exp2)).length ≤ 1 := by
    refine le_trans (List.length_filter_le _ _) ?_
    refine le_trans (List.length_filter_le _ _) ?_
    exact List.length_filter_le _ _
  set L1 := g.nodes.filter (fun p => p.1 != b.mul) with hL1
  set L2 := L1.filter (fun p => p.1 != b.constant) with hL2
  set L3 := L2.filter (fun p => p.1 != b.exp2) with hL3
  have hA : L1.length < g.nodes.length := length_filter_lt _ hmemmul (by simp)
  have hexp2' : (b.exp2, Op.metalExp2) ∈ L2 :=
    mem_filter_of_ne (mem_filter_of_ne hmemexp h_exp_mul) h_exp_const
  have hB : L2.length ≤ L1.length := List.length_filter_le _ _
  have hC : L3.length < L2.length := length_filter_lt _ hexp2' (by simp)
  omega

/-! Helper lemmas: quiescence after a full pass run, and idempotence. -/

theorem cosBindings_nil {g : Graph} (h : g.nodes = []) : cosBindings g = [] := by
  rcases hb : cosBindings g with _ | ⟨b, t⟩
  · rfl
  · exfalso
    have hmem : b ∈ cosBindings g := by rw [hb]; exact List.mem_cons_self b t
    obtain ⟨hsin, -⟩ := cosBindings_sound hmem
    obtain ⟨o, hl, -⟩ := isTy_lookup hsin
    have := lookupOp_mem hl
    rw [h] at this
    cases this

theorem expBindings_nil {g : Graph} (h : g.nodes = []) : expBindings g = [] := by
  rcases hb : expBindings g with _ | ⟨b, t⟩
  · rfl
  · exfalso
    have hmem : b ∈ expBindings g := by rw [hb]; exact List.mem_cons_self b t
    obtain ⟨hexp, -⟩ := expBindings_sound hmem
    obtain ⟨o, hl, -⟩ := isTy_lookup hexp
    have := lookupOp_mem hl
    rw [h] at this
    cases this

theorem cosFirstMatch_mem {g : Graph} {b : CosBinding}
    (h : cosFirstMatch g = some b) : b ∈ cosBindings g :=
  List.mem_of_find?_eq_some h

theorem expFirstMatch_mem {g : Graph} {b : ExpBinding}
    (h : expFirstMatch g = some b) : b ∈ expBindings g :=
  List.mem_of_find?_eq_some h

theorem cosLoop_quiescent {dev : Nat} :
    ∀ (fuel : Nat) (g g2 : Graph), g.nodes.length ≤ fuel →
      cosLoop dev fuel g = some g2 → cosFirstMatch g2 = none := by
  intro fuel
  induction fuel with
  | zero =>
    intro g g2 hle h
    have hg : g2 = g := (Option.some.inj h).symm
    subst hg
    have hnil : g2.nodes = [] := List.eq_nil_of_length_eq_zero (Nat.le_zero.1 hle)
    unfold cosFirstMatch
    rw [cosBindings_nil hnil]
    rfl
  | succ n ih =>
    intro g g2 hle h
    unfold cosLoop at h
    split at h
    case h_1 hf =>
      have hg : g2 = g := (Option.some.inj h).symm
      subst hg
      exact hf
    case h_2 b hf =>
      split at h
      case h_1 ha => cases h
      case h_2 g1 ha =>
        have hlt := applyCos_length (cosFirstMatch_mem hf) ha
        exact ih g1 g2 (by omega) h

theorem expLoop_quiescent {dev : Nat} :
    ∀ (fuel : Nat) (g g2 : Graph), g.nodes.length ≤ fuel →
      expLoop dev fuel g = some g2 → expFirstMatch g2 = none := by
  intro fuel
  induction fuel with
  | zero =>
    intro g g2 hle h
    have hg : g2 = g := (Option.some.inj h).symm
    subst hg
    have hnil : g2.nodes = [] := List.eq_nil_of_length_eq_zero (Nat.le_zero.1 hle)
    unfold expFirstMatch
    rw [expBindings_nil hnil]
    rfl
  | succ n ih =>
    intro g g2 hle h
    unfold expLoop at h
    split at h
    case h_1 hf =>
      have hg : g2 = g := (Option.some.inj h).symm
      subst hg
      exact hf
    case h_2 b hf =>
      split at h
      case h_1 ha => cases h
      case h_2 g1 ha =>
        have hlt := applyExp_length (expFirstMatch_mem hf) ha
        exact ih g1 g2 (by omega) h

theorem cosLoop_of_none {dev fuel : Nat} {g : Graph}
    (h : cosFirstMatch g = none) : cosLoop dev fuel g = some g := by
  cases fuel with
  | zero => rfl
  | succ n => unfold cosLoop; rw [h]

theorem expLoop_of_none {dev fuel : Nat} {g : Graph}
    (h : expFirstMatch g = none) : expLoop dev fuel g = some g := by
  cases fuel with
  | zero => rfl
  | succ n => unfold expLoop; rw [h]

/-! Helper lemmas: reference carry-forward. -/

theorem mem_map_replace {l : List Nat} {a b : Nat} (h : a ∈ l) :
    b ∈ l.map (fun i => if i == a then b else i) :=
  List.mem_map.2 ⟨a, h, by simp⟩

theorem not_mem_map_replace {l : List Nat} {a b : Nat} (hne : a ≠ b) :
    a ∉ l.map (fun i => if i == a then b else i) := by
  intro hmem
  obtain ⟨i, hi, heq⟩ := List.mem_map.1 hmem
  by_cases hcase : i = a
  · subst hcase
    rw [if_pos (by simp)] at heq
    exact hne heq.symm
  · rw [if_neg (by simpa using hcase)] at heq
    exact hcase heq

theorem occurs_replace {r : List (Nat × Nat)} {a b : Nat}
    (h : occursInRemap a r = true) :
    occursInRemap b (r.map (fun p =>
      (if p.1 == a then b else p.1, if p.2 == a then b else p.2))) = true := by
  unfold occursInRemap at h ⊢
  rw [List.any_eq_true] at h ⊢
  obtain ⟨p, hp, hcond⟩ := h
  refine ⟨(if p.1 == a then b else p.1, if p.2 == a then b else p.2),
    List.mem_map.2 ⟨p, hp, rfl⟩, ?_⟩
  rw [Bool.or_eq_true] at hcond
  rcases hcond with h1 | h1
  · have hpa : p.1 = a := by simpa using h1
    simp [hpa]
  · have hpa : p.2 = a := by simpa using h1
    simp [hpa]

theorem not_occurs_replace {r : List (Nat × Nat)} {a b : Nat} (hne : a ≠ b) :
    occursInRemap a (r.map (fun p =>
      (if p.1 == a then b else p.1, if p.2 == a then b else p.2))) = false := by
  unfold occursInRemap
  rw [List.any_eq_false]
  intro q hq
  obtain ⟨p, hp, hpe⟩ := List.mem_map.1 hq
  subst hpe
  have hba : ¬ b = a := fun e => hne e.symm
  by_cases h1 : p.1 = a <;> by_cases h2 : p.2 = a <;>
    simp [h1, h2, hba]

theorem applyCos_to_retrieve {dev : Nat} {g : Graph} {b : CosBinding} {g2 : Graph}
    (h : applyCos dev g b = some g2) :
    g2.to_retrieve = g.to_retrieve.map
      (fun i => if i == b.sin then g.next_id else i) := by
  obtain ⟨sh, -, hg2⟩ := applyCos_some h
  rw [hg2]; rfl

theorem applyCos_no_delete {dev : Nat} {g : Graph} {b : CosBinding} {g2 : Graph}
    (h : applyCos dev g b = some g2) :
    g2.no_delete = g.no_delete.map
      (fun i => if i == b.sin then g.next_id else i) := by
  obtain ⟨sh, -, hg2⟩ := applyCos_some h
  rw [hg2]; rfl

theorem applyCos_id_remap {dev : Nat} {g : Graph} {b : CosBinding} {g2 : Graph}
    (h : applyCos dev g b = some g2) :
    g2.id_remap = g.id_remap.map (fun p =>
      (if p.1 == b.sin then g.next_id else p.1,
       if p.2 == b.sin then g.next_id else p.2)) := by
  obtain ⟨sh, -, hg2⟩ := applyCos_some h
  rw [hg2]; rfl

theorem applyExp_to_retrieve {dev : Nat} {g : Graph} {b : ExpBinding} {g2 : Graph}
    (h : applyExp dev g b = some g2) :
    g2.to_retrieve = g.to_retrieve.map
      (fun i => if i == b.exp2 then g.next_id else i) := by
  obtain ⟨s, -, hg2⟩ := applyExp_some h
  rw [hg2]; rfl

theorem applyExp_no_delete {dev : Nat} {g : Graph} {b : ExpBinding} {g2 : Graph}
    (h : applyExp dev g b = some g2) :
    g2.no_delete = g.no_delete.map
      (fun i => if i == b.exp2 then g.next_id else i) := by
  obtain ⟨s, -, hg2⟩ := applyExp_some h
  rw [hg2]; rfl

theorem applyExp_id_remap {dev : Nat} {g : Graph} {b : ExpBinding} {g2 : Graph}
    (h : applyExp dev g b = some g2) :
    g2.id_remap = g.id_remap.map (fun p =>
      (if p.1 == b.exp2 then g.next_id else p.1,
       if p.2 == b.exp2 then g.next_id else p.2)) := by
  obtain ⟨s, -, hg2⟩ := applyExp_some h
  rw [hg2]; rfl

/-! Helper lemmas: outgoing-edge bookkeeping under one rewrite. -/

theorem flatMap_congr_mem {α β : Type} {l : List α} {f g : α → List β}
    (h : ∀ a ∈ l, f a = g a) : l.flatMap f = l.flatMap g := by
  induction l with
  | nil => rfl
  | cons a t ih =>
    rw [List.flatMap_cons, List.flatMap_cons, h a (List.mem_cons_self a t),
      ih (fun x hx => h x (List.mem_cons_of_mem _ hx))]

theorem flatMap_filter {α β : Type} (p : α → Bool) (f : α → List β) (l : List α) :
    (l.filter p).flatMap f = l.flatMap (fun a => if p a then f a else []) := by
  induction l with
  | nil => rfl
  | cons a t ih =>
    rw [List.filter_cons]
    by_cases hp : p a = true
    · rw [if_pos hp, List.flatMap_cons, ih, List.flatMap_cons, if_pos hp]
    · rw [if_neg hp, List.flatMap_cons, if_neg hp, List.nil_append, ih]

theorem outgoingOf_flatMap (l : List Edge) (n : Nat) :
    outgoingOf l n = l.flatMap (fun e => if e.src == n then [edgeTriple e] else []) := by
  induction l with
  | nil => rfl
  | cons e t ih =>
    unfold outgoingOf at ih ⊢
    rw [List.filter_cons, List.flatMap_cons]
    by_cases hs : (e.src == n) = true
    · rw [if_pos hs, List.map_cons, ih, if_pos hs, List.singleton_append]
    · rw [if_neg hs, ih, if_neg hs, List.nil_append]

theorem outgoingOf_append (l1 l2 : List Edge) (n : Nat) :
    outgoingOf (l1 ++ l2) n = outgoingOf l1 n ++ outgoingOf l2 n := by
  unfold outgoingOf
  rw [List.filter_append, List.map_append]

theorem rewire_outgoing_new (old nw : Nat) (del : List Nat) (l : List Edge)
    (h1 : ∀ e ∈ l, e.src ≠ nw)
    (h2 : ∀ e ∈ l, e.src = old → memb e.dst del = false)
    (h3 : memb nw del = false) :
    outgoingOf ((l.map (renameSrc old nw)).filter (keepEdge del)) nw =
      outgoingOf l old := by
  rw [outgoingOf_flatMap, flatMap_filter, List.flatMap_map, outgoingOf_flatMap]
  apply flatMap_congr_mem
  intro e he
  by_cases hsrc : e.src = old
  · have hdst := h2 e he hsrc
    have hr : renameSrc old nw e = { e with src := nw } := by
      simp [renameSrc, hsrc]
    have hk : keepEdge del ({ e with src := nw } : Edge) = true := by
      simp [keepEdge, h3, hdst]
    rw [hr]
    simp [hk, hsrc, edgeTriple]
  · have hr : renameSrc old nw e = e := by
      simp [renameSrc, hsrc]
    have hnsrc : (e.src == nw) = false := by
      simpa using h1 e he
    rw [hr]
    simp [hnsrc, hsrc]

theorem rewire_outgoing_frame (old nw n : Nat) (del : List Nat) (l : List Edge)
    (hn_old : n ≠ old) (hn_nw : n ≠ nw) (hn_del : memb n del = false) :
    outgoingOf ((l.map (renameSrc old nw)).filter (keepEdge del)) n =
      (outgoingOf l n).filter (fun tr => !(memb tr.1 del)) := by
  rw [outgoingOf_flatMap, flatMap_filter, List.flatMap_map, outgoingOf_flatMap,
    List.filter_flatMap]
  apply flatMap_congr_mem
  intro e he
  by_cases hsrc : e.src = old
  · have hr : renameSrc old nw e = { e with src := nw } := by
      simp [renameSrc, hsrc]
    have ha : (e.src == n) = false := by
      rw [hsrc]
      simpa using fun e2 => hn_old e2.symm
    have hb : ((({ e with src := nw } : Edge).src) == n) = false := by
      simpa using fun e2 => hn_nw e2.symm
    rw [hr]
    simp [ha, hb]
  · have hr : renameSrc old nw e = e := by
      simp [renameSrc, hsrc]
    rw [hr]
    by_cases hsn : e.src = n
    · by_cases hd : memb e.dst del = true
      · simp [keepEdge, edgeTriple, hsn, hn_del, hd]
      · have hd2 : memb e.dst del = false := by
          simpa using hd
        simp [keepEdge, edgeTriple, hsn, hn_del, hd2]
    · have hsn2 : (e.src == n) = false := by
        simpa using hsn
      simp [hsn2]

theorem delFilter_chain5 (a1 a2 a3 a4 a5 : Nat) (l : List Edge) :
    ((((l.filter (fun e => e.src != a1 && e.dst != a1)).filter
      (fun e => e.src != a2 && e.dst != a2)).filter
      (fun e => e.src != a3 && e.dst != a3)).filter
      (fun e => e.src != a4 && e.dst != a4)).filter
      (fun e => e.src != a5 && e.dst != a5) =
    l.filter (keepEdge [a1, a2, a3, a4, a5]) := by
  rw [List.filter_filter, List.filter_filter, List.filter_filter,
    List.filter_filter]
  refine List.filter_congr ?_
  intro e he
  simp only [keepEdge, memb, List.any_cons, List.any_nil, bne]
  generalize (e.src == a1) = A1
  generalize (e.src == a2) = A2
  generalize (e.src == a3) = A3
  generalize (e.src == a4) = A4
  generalize (e.src == a5) = A5
  generalize (e.dst == a1) = B1
  generalize (e.dst == a2) = B2
  generalize (e.dst == a3) = B3
  generalize (e.dst == a4) = B4
  generalize (e.dst == a5) = B5
  revert A1 A2 A3 A4 A5 B1 B2 B3 B4 B5
  decide

theorem delFilter_chain3 (a1 a2 a3 : Nat) (l : List Edge) :
    ((l.filter (fun e => e.src != a1 && e.dst != a1)).filter
      (fun e => e.src != a2 && e.dst != a2)).filter
      (fun e => e.src != a3 && e.dst != a3) =
    l.filter (keepEdge [a1, a2, a3]) := by
  rw [List.filter_filter, List.filter_filter]
  refine List.filter_congr ?_
  intro e he
  simp only [keepEdge, memb, List.any_cons, List.any_nil, bne]
  generalize (e.src == a1) = A1
  generalize (e.src == a2) = A2
  generalize (e.src == a3) = A3
  generalize (e.dst == a1) = B1
  generalize (e.dst == a2) = B2
  generalize (e.dst == a3) = B3
  revert A1 A2 A3 B1 B2 B3
  decide

theorem applyCos_edges {dev : Nat} {g : Graph} {b : CosBinding} {g2 : Graph}
    (h : applyCos dev g b = some g2) :
    ∃ sh, mulInputShape g b.mul = some sh ∧
      g2.edges = ((g.edges ++ [Edge.mk b.x g.next_id 0 sh]).map
        (renameSrc b.sin g.next_id)).filter
        (keepEdge [b.mul, b.add, b.const_neg_one, b.const_pi, b.sin]) := by
  obtain ⟨sh, hm, hg2⟩ := applyCos_some h
  refine ⟨sh, hm, ?_⟩
  have hseq : g2.edges =
      (((((((g.edges ++ [Edge.mk b.x g.next_id 0 sh]).map
        (renameSrc b.sin g.next_id)).filter
        (fun e => e.src != b.mul && e.dst != b.mul)).filter
        (fun e => e.src != b.add && e.dst != b.add)).filter
        (fun e => e.src != b.const_neg_one && e.dst != b.const_neg_one)).filter
        (fun e => e.src != b.const_pi && e.dst != b.const_pi)).filter
        (fun e => e.src != b.sin && e.dst != b.sin)) := by
    rw [hg2]; rfl
  rw [hseq, delFilter_chain5]

theorem applyExp_edges {dev : Nat} {g : Graph} {b : ExpBinding} {g2 : Graph}
    (h : applyExp dev g b = some g2) :
    ∃ s, (getSources g b.mul).find? (fun p => p.1 != b.constant) = some s ∧
      g2.edges = ((g.edges ++ [Edge.mk s.1 g.next_id 0 s.2]).map
        (renameSrc b.exp2 g.next_id)).filter
        (keepEdge [b.mul, b.constant, b.exp2]) := by
  obtain ⟨s, hm, hg2⟩ := applyExp_some h
  refine ⟨s, hm, ?_⟩
  have hseq : g2.edges =
      (((((g.edges ++ [Edge.mk s.1 g.next_id 0 s.2]).map
        (renameSrc b.exp2 g.next_id)).filter
        (fun e => e.src != b.mul && e.dst != b.mul)).filter
        (fun e => e.src != b.constant && e.dst != b.constant)).filter
        (fun e => e.src != b.exp2 && e.dst != b.exp2)) := by
    rw [hg2]; rfl
  rw [hseq, delFilter_chain3]

theorem applyCos_outgoing {dev : Nat} {g : Graph} {b : CosBinding} {g2 : Graph}
    (h : applyCos dev g b = some g2)
    (hfresh : ∀ e ∈ g.edges, e.src ≠ g.next_id)
    (hx_nid : b.x ≠ g.next_id)
    (hx_sin : b.x ≠ b.sin)
    (hnid_del : memb g.next_id
      [b.mul, b.add, b.const_neg_one, b.const_pi, b.sin] = false)
    (hcons : ∀ e ∈ g.edges, e.src = b.sin →
      memb e.dst [b.mul, b.add, b.const_neg_one, b.const_pi, b.sin] = false) :
    outgoingTriples g2 g.next_id = outgoingTriples g b.sin ∧
    (∀ n, n ≠ b.sin → n ≠ g.next_id → n ≠ b.x →
      memb n [b.mul, b.add, b.const_neg_one, b.const_pi, b.sin] = false →
      outgoingTriples g2 n = (outgoingTriples g n).filter
        (fun tr => !(memb tr.1 [b.mul, b.add, b.const_neg_one, b.const_pi, b.sin]))) ∧
    (memb b.x [b.mul, b.add, b.const_neg_one, b.const_pi, b.sin] = false →
      ∃ sh, mulInputShape g b.mul = some sh ∧
        outgoingTriples g2 b.x = (outgoingTriples g b.x).filter
          (fun tr => !(memb tr.1 [b.mul, b.add, b.const_neg_one, b.const_pi, b.sin]))
          ++ [(g.next_id, 0, sh)]) := by
  obtain ⟨sh, hm, he⟩ := applyCos_edges h
  have hL1 : ∀ e ∈ g.edges ++ [Edge.mk b.x g.next_id 0 sh], e.src ≠ g.next_id := by
    intro e hmem
    rcases List.mem_append.1 hmem with hmem | hmem
    · exact hfresh e hmem
    · have : e = Edge.mk b.x g.next_id 0 sh := by simpa using hmem
      rw [this]
      exact hx_nid
  have hL2 : ∀ e ∈ g.edges ++ [Edge.mk b.x g.next_id 0 sh], e.src = b.sin →
      memb e.dst [b.mul, b.add, b.const_neg_one, b.const_pi, b.sin] = false := by
    intro e hmem hsrc
    rcases List.mem_append.1 hmem with hmem | hmem
    · exact hcons e hmem hsrc
    · have : e = Edge.mk b.x g.next_id 0 sh := by simpa using hmem
      rw [this] at hsrc
      exact absurd hsrc hx_sin
  have hnew_nil : outgoingOf [Edge.mk b.x g.next_id 0 sh] b.sin = [] := by
    simp [outgoingOf, hx_sin]
  refine ⟨?_, ?_, ?_⟩
  · unfold outgoingTriples
    rw [he, rewire_outgoing_new _ _ _ _ hL1 hL2 hnid_del, outgoingOf_append,
      hnew_nil, List.append_nil]
  · intro n hn_sin hn_nid hn_x hn_del
    have hnew_nil2 : outgoingOf [Edge.mk b.x g.next_id 0 sh] n = [] := by
      simp [outgoingOf]
      intro hcontra
      exact absurd hcontra.symm hn_x
    unfold outgoingTriples
    rw [he, rewire_outgoing_frame _ _ _ _ _ hn_sin hn_nid hn_del,
      outgoingOf_append, hnew_nil2, List.append_nil]
  · intro hx_del
    refine ⟨sh, hm, ?_⟩
    have hnew_one : outgoingOf [Edge.mk b.x g.next_id 0 sh] b.x =
        [(g.next_id, 0, sh)] := by
      simp [outgoingOf, edgeTriple]
    unfold outgoingTriples
    rw [he, rewire_outgoing_frame _ _ _ _ _ hx_sin hx_nid hx_del,
      outgoingOf_append, hnew_one, List.filter_append]
    have : List.filter (fun tr => !(memb tr.1
        [b.mul, b.add, b.const_neg_one, b.const_pi, b.sin]))
        [((g.next_id : Nat), (0 : Nat), sh)] = [(g.next_id, 0, sh)] := by
      rw [List.filter_cons]
      simp only [hnid_del]
      rfl
    rw [this]

theorem applyExp_outgoing {dev : Nat} {g : Graph} {b : ExpBinding} {g2 : Graph}
    {s : Nat × Nat}
    (h : applyExp dev g b = some g2)
    (hm : (getSources g b.mul).find? (fun p => p.1 != b.constant) = some s)
    (hfresh : ∀ e ∈ g.edges, e.src ≠ g.next_id)
    (hs_nid : s.1 ≠ g.next_id)
    (hs_exp : s.1 ≠ b.exp2)
    (hnid_del : memb g.next_id [b.mul, b.constant, b.exp2] = false)
    (hcons : ∀ e ∈ g.edges, e.src = b.exp2 →
      memb e.dst [b.mul, b.constant, b.exp2] = false) :
    outgoingTriples g2 g.next_id = outgoingTriples g b.exp2 ∧
    (∀ n, n ≠ b.exp2 → n ≠ g.next_id → n ≠ s.1 →
      memb n [b.mul, b.constant, b.exp2] = false →
      outgoingTriples g2 n = (outgoingTriples g n).filter
        (fun tr => !(memb tr.1 [b.mul, b.constant, b.exp2]))) ∧
    (memb s.1 [b.mul, b.constant, b.exp2] = false →
      outgoingTriples g2 s.1 = (outgoingTriples g s.1).filter
        (fun tr => !(memb tr.1 [b.mul, b.constant, b.exp2]))
        ++ [(g.next_id, 0, s.2)]) := by
  obtain ⟨s2, hm2, he⟩ := applyExp_edges h
  rw [hm] at hm2
  have hs2 : s2 = s := (Option.some.inj hm2).symm
  rw [hs2] at he
  have hL1 : ∀ e ∈ g.edges ++ [Edge.mk s.1 g.next_id 0 s.2], e.src ≠ g.next_id := by
    intro e hmem
    rcases List.mem_append.1 hmem with hmem | hmem
    · exact hfresh e hmem
    · have : e = Edge.mk s.1 g.next_id 0 s.2 := by simpa using hmem
      rw [this]
      exact hs_nid
  have hL2 : ∀ e ∈ g.edges ++ [Edge.mk s.1 g.next_id 0 s.2], e.src = b.exp2 →
      memb e.dst [b.mul, b.constant, b.exp2] = false := by
    intro e hmem hsrc
    rcases List.mem_append.1 hmem with hmem | hmem
    · exact hcons e hmem hsrc
    · have : e = Edge.mk s.1 g.next_id 0 s.2 := by simpa using hmem
      rw [this] at hsrc
      exact absurd hsrc hs_exp
  have hnew_nil : outgoingOf [Edge.mk s.1 g.next_id 0 s.2] b.exp2 = [] := by
    simp [outgoingOf, hs_exp]
  refine ⟨?_, ?_, ?_⟩
  · unfold outgoingTriples
    rw [he, rewire_outgoing_new _ _ _ _ hL1 hL2 hnid_del, outgoingOf_append,
      hnew_nil, List.append_nil]
  · intro n hn_exp hn_nid hn_s hn_del
    have hnew_nil2 : outgoingOf [Edge.mk s.1 g.next_id 0 s.2] n = [] := by
      simp [outgoingOf]
      intro hcontra
      exact absurd hcontra.symm hn_s
    unfold outgoingTriples
    rw [he, rewire_outgoing_frame _ _ _ _ _ hn_exp hn_nid hn_del,
      outgoingOf_append, hnew_nil2, List.append_nil]
  · intro hs_del
    have hnew_one : outgoingOf [Edge.mk s.1 g.next_id 0 s.2] s.1 =
        [(g.next_id, 0, s.2)] := by
      simp [outgoingOf, edgeTriple]
    unfold outgoingTriples
    rw [he, rewire_outgoing_frame _ _ _ _ _ hs_exp hs_nid hs_del,
      outgoingOf_append, hnew_one, List.filter_append]
    have : List.filter (fun tr => !(memb tr.1 [b.mul, b.constant, b.exp2]))
        [((g.next_id : Nat), (0 : Nat), s.2)] = [(g.next_id, 0, s.2)] := by
      rw [List.filter_cons]
      simp only [hnid_del]
      rfl
    rw [this]

/-! Helper lemmas: node-list and incoming-edge shape of one rewrite. -/

theorem nodeFilter_chain5 (a1 a2 a3 a4 a5 : Nat) (l : List (Nat × Op)) :
    ((((l.filter (fun p => p.1 != a1)).filter (fun p => p.1 != a2)).filter
      (fun p => p.1 != a3)).filter (fun p => p.1 != a4)).filter
      (fun p => p.1 != a5) =
    l.filter (fun p => !(memb p.1 [a1, a2, a3, a4, a5])) := by
  rw [List.filter_filter, List.filter_filter, List.filter_filter,
    List.filter_filter]
  refine List.filter_congr ?_
  intro p hp
  simp only [memb, List.any_cons, List.any_nil, bne]
  generalize (p.1 == a1) = A1
  generalize (p.1 == a2) = A2
  generalize (p.1 == a3) = A3
  generalize (p.1 == a4) = A4
  generalize (p.1 == a5) = A5
  revert A1 A2 A3 A4 A5
  decide

theorem nodeFilter_chain3 (a1 a2 a3 : Nat) (l : List (Nat × Op)) :
    ((l.filter (fun p => p.1 != a1)).filter (fun p => p.1 != a2)).filter
      (fun p => p.1 != a3) =
    l.filter (fun p => !(memb p.1 [a1, a2, a3])) := by
  rw [List.filter_filter, List.filter_filter]
  refine List.filter_congr ?_
  intro p hp
  simp only [memb, List.any_cons, List.any_nil, bne]
  generalize (p.1 == a1) = A1
  generalize (p.1 == a2) = A2
  generalize (p.1 == a3) = A3
  revert A1 A2 A3
  decide

theorem applyCos_nodes_eq {dev : Nat} {g : Graph} {b : CosBinding} {g2 : Graph}
    (h : applyCos dev g b = some g2)
    (hnid : memb g.next_id
      [b.mul, b.add, b.const_neg_one, b.const_pi, b.sin] = false) :
    g2.nodes = g.nodes.filter (fun p =>
      !(memb p.1 [b.mul, b.add, b.const_neg_one, b.const_pi, b.sin]))
      ++ [(g.next_id, Op.metalCos dev)] := by
  obtain ⟨sh, -, hg2⟩ := applyCos_some h
  have hseq : g2.nodes = (((((g.nodes ++ [(g.next_id, Op.metalCos dev)]).filter
      (fun p => p.1 != b.mul)).filter (fun p => p.1 != b.add)).filter
      (fun p => p.1 != b.const_neg_one)).filter
      (fun p => p.1 != b.const_pi)).filter (fun p => p.1 != b.sin) := by
    rw [hg2]; rfl
  rw [hseq, nodeFilter_chain5, List.filter_append]
  congr 1
  simp [hnid]

theorem applyExp_nodes_eq {dev : Nat} {g : Graph} {b : ExpBinding} {g2 : Graph}
    (h : applyExp dev g b = some g2)
    (hnid : memb g.next_id [b.mul, b.constant, b.exp2] = false) :
    g2.nodes = g.nodes.filter (fun p =>
      !(memb p.1 [b.mul, b.constant, b.exp2]))
      ++ [(g.next_id, Op.metalExp dev)] := by
  obtain ⟨s, -, hg2⟩ := applyExp_some h
  have hseq : g2.nodes = (((g.nodes ++ [(g.next_id, Op.metalExp dev)]).filter
      (fun p => p.1 != b.mul)).filter
      (fun p => p.1 != b.constant)).filter (fun p => p.1 != b.exp2) := by
    rw [hg2]; rfl
  rw [hseq, nodeFilter_chain3, List.filter_append]
  congr 1
  simp [hnid]

theorem incoming_new_edges (old nw : Nat) (del : List Nat) (l : List Edge)
    (h1 : ∀ e ∈ l, e.dst ≠ nw) :
    ((l.map (renameSrc old nw)).filter (keepEdge del)).filter
      (fun e => e.dst == nw) = [] := by
  induction l with
  | nil => rfl
  | cons e t ih =>
    have ht := ih (fun e2 he2 => h1 e2 (List.mem_cons_of_mem _ he2))
    have hd : (renameSrc old nw e).dst = e.dst := by
      unfold renameSrc
      split <;> rfl
    have hdne : ((renameSrc old nw e).dst == nw) = false := by
      rw [hd]
      simpa using h1 e (List.mem_cons_self e t)
    rw [List.map_cons, List.filter_cons]
    by_cases hk : keepEdge del (renameSrc old nw e) = true
    · rw [if_pos hk, List.filter_cons, hdne]
      simpa using ht
    · rw [if_neg hk]
      exact ht

theorem applyCos_incoming {dev : Nat} {g : Graph} {b : CosBinding} {g2 : Graph}
    (h : applyCos dev g b = some g2)
    (hfd : ∀ e ∈ g.edges, e.dst ≠ g.next_id)
    (hx_sin : b.x ≠ b.sin)
    (hx_del : memb b.x [b.mul, b.add, b.const_neg_one, b.const_pi, b.sin] = false)
    (hnid_del : memb g.next_id
      [b.mul, b.add, b.const_neg_one, b.const_pi, b.sin] = false) :
    ∃ sh, mulInputShape g b.mul = some sh ∧
      g2.edges.filter (fun e => e.dst == g.next_id) =
        [Edge.mk b.x g.next_id 0 sh] := by
  obtain ⟨sh, hm, he⟩ := applyCos_edges h
  refine ⟨sh, hm, ?_⟩
  rw [he, List.map_append, List.filter_append, List.filter_append,
    incoming_new_edges _ _ _ _ hfd, List.nil_append]
  have h1 : renameSrc b.sin g.next_id (Edge.mk b.x g.next_id 0 sh) =
      Edge.mk b.x g.next_id 0 sh := by
    unfold renameSrc
    rw [if_neg (by simpa using hx_sin)]
  rw [List.map_cons, List.map_nil, h1]
  simp [keepEdge, hx_del, hnid_del]

theorem applyExp_incoming {dev : Nat} {g : Graph} {b : ExpBinding} {g2 : Graph}
    {s : Nat × Nat}
    (h : applyExp dev g b = some g2)
    (hm : (getSources g b.mul).find? (fun p => p.1 != b.constant) = some s)
    (hfd : ∀ e ∈ g.edges, e.dst ≠ g.next_id)
    (hs_exp : s.1 ≠ b.exp2)
    (hs_del : memb s.1 [b.mul, b.constant, b.exp2] = false)
    (hnid_del : memb g.next_id [b.mul, b.constant, b.exp2] = false) :
    g2.edges.filter (fun e => e.dst == g.next_id) =
      [Edge.mk s.1 g.next_id 0 s.2] := by
  obtain ⟨s2, hm2, he⟩ := applyExp_edges h
  rw [hm] at hm2
  have hs2 : s2 = s := (Option.some.inj hm2).symm
  rw [hs2] at he
  rw [he, List.map_append, List.filter_append, List.filter_append,
    incoming_new_edges _ _ _ _ hfd, List.nil_append]
  have h1 : renameSrc b.exp2 g.next_id (Edge.mk s.1 g.next_id 0 s.2) =
      Edge.mk s.1 g.next_id 0 s.2 := by
    unfold renameSrc
    rw [if_neg (by simpa using hs_exp)]
  rw [List.map_cons, List.map_nil, h1]
  simp [keepEdge, hs_del, hnid_del]

/-! Claim theorems. -/

/-- C1 counterexample: the claim quantifies over every graph containing
the cos subgraph with no protection proviso, but on a containing graph
whose const_neg_one node (node 1) is in no_delete the pass skips the
match: the graph is returned unchanged and the five matched nodes,
including sin (node 5), are still present. -/
theorem c1_counterexample_protected_match_not_fused :
    (⟨1, 2, 3, 4, 5, 0⟩ : CosBinding) ∈
      cosBindings (scenarioA 0 0 0 0 0 0 0 0 0 0 0 0 [1]) ∧
    cosCompile (some 0) (scenarioA 0 0 0 0 0 0 0 0 0 0 0 0 [1]) =
      some (scenarioA 0 0 0 0 0 0 0 0 0 0 0 0 [1]) ∧
    lookupOp (scenarioA 0 0 0 0 0 0 0 0 0 0 0 0 [1]) 5 = some .metalSin :=
  ⟨by decide, by decide, by decide⟩

/-- C1 amended: for every graph and every match of the cos pattern the
pass actually applies (matches with a protected checked node are
skipped), the applied rewrite, with the fresh node id outside the
existing nodes and edges and with x and sin's consumers outside the
deleted set, removes exactly the five matched nodes and no others, adds
exactly one new MetalCos node, whose sole input edge comes from x with
slot 0 and the shape of the first incoming edge of mul, and every edge
that previously left sin now leaves the new node with destination, slot
and shape preserved; on the Scenario A family the full pass produces
exactly the fused graph. -/
theorem c1_amended_cos_fusion :
    (∀ (dev : Nat) (g : Graph) (b2 : CosBinding) (g2 : Graph),
      cosFirstMatch g = some b2 →
      applyCos dev g b2 = some g2 →
      g.edges.all (fun e => e.src != g.next_id && e.dst != g.next_id) = true →
      b2.x ≠ g.next_id → b2.x ≠ b2.sin →
      memb b2.x [b2.mul, b2.add, b2.const_neg_one, b2.const_pi, b2.sin] = false →
      memb g.next_id
        [b2.mul, b2.add, b2.const_neg_one, b2.const_pi, b2.sin] = false →
      g.edges.all (fun e => !(e.src == b2.sin) ||
        !(memb e.dst [b2.mul, b2.add, b2.const_neg_one, b2.const_pi, b2.sin])) = true →
      g2.nodes = g.nodes.filter (fun p =>
        !(memb p.1 [b2.mul, b2.add, b2.const_neg_one, b2.const_pi, b2.sin]))
        ++ [(g.next_id, Op.metalCos dev)] ∧
      (∃ sh, mulInputShape g b2.mul = some sh ∧
        g2.edges.filter (fun e => e.dst == g.next_id) =
          [Edge.mk b2.x g.next_id 0 sh]) ∧
      outgoingTriples g2 g.next_id = outgoingTriples g b2.sin) ∧
    (∀ t u1 u2 shx shc1 shm shc2 sha s1 s2 h1 h2 d : Nat,
      cosCompile (some d)
        (scenarioA t u1 u2 shx shc1 shm shc2 sha s1 s2 h1 h2 []) =
      some { nodes := [(0, .other t), (6, .other u1), (7, .other u2),
                       (8, .metalCos d)],
             edges := [⟨8, 6, s1, h1⟩, ⟨8, 7, s2, h2⟩, ⟨0, 8, 0, shx⟩],
             no_delete := [], to_retrieve := [], id_remap := [],
             next_id := 9 }) := by
  constructor
  · intro dev g b2 g2 hfm h hedges hx_nid hx_sin hx_del hnid_del hcons_all
    have hsrc : ∀ e ∈ g.edges, e.src ≠ g.next_id := by
      intro e he
      have h2 := (List.all_eq_true.1 hedges) e he
      rw [Bool.and_eq_true] at h2
      simpa using h2.1
    have hdst : ∀ e ∈ g.edges, e.dst ≠ g.next_id := by
      intro e he
      have h2 := (List.all_eq_true.1 hedges) e he
      rw [Bool.and_eq_true] at h2
      simpa using h2.2
    have hcons : ∀ e ∈ g.edges, e.src = b2.sin →
        memb e.dst [b2.mul, b2.add, b2.const_neg_one, b2.const_pi, b2.sin]
          = false := by
      intro e he hsrc2
      have h2 := (List.all_eq_true.1 hcons_all) e he
      rw [hsrc2] at h2
      simpa using h2
    refine ⟨applyCos_nodes_eq h hnid_del,
      applyCos_incoming h hdst hx_sin hx_del hnid_del,
      (applyCos_outgoing h hsrc hx_nid hx_sin hnid_del hcons).1⟩
  · intro t u1 u2 shx shc1 shm shc2 sha s1 s2 h1 h2 d
    rfl

/-- C1 amended witness: on the concrete Scenario A instance, the applied
rewrite leaves exactly the non-matched nodes plus the one new MetalCos
node (id 8). -/
theorem c1_amended_cos_fusion_witness :
    ({ nodes := [(0, .other 0), (6, .other 0), (7, .other 0),
                 (8, .metalCos 0)],
       edges := [⟨8, 6, 0, 0⟩, ⟨8, 7, 0, 0⟩, ⟨0, 8, 0, 0⟩],
       no_delete := [], to_retrieve := [], id_remap := [],
       next_id := 9 } : Graph).nodes =
    (scenarioA 0 0 0 0 0 0 0 0 0 0 0 0 []).nodes.filter
      (fun p => !(memb p.1 [3, 4, 1, 2, 5])) ++ [(8, Op.metalCos 0)] :=
  (c1_amended_cos_fusion.1 0 (scenarioA 0 0 0 0 0 0 0 0 0 0 0 0 [])
    ⟨1, 2, 3, 4, 5, 0⟩
    { nodes := [(0, .other 0), (6, .other 0), (7, .other 0), (8, .metalCos 0)],
      edges := [⟨8, 6, 0, 0⟩, ⟨8, 7, 0, 0⟩, ⟨0, 8, 0, 0⟩],
      no_delete := [], to_retrieve := [], id_remap := [], next_id := 9 }
    (by decide) (by decide) (by decide) (by decide) (by decide) (by decide)
    (by decide) (by decide)).1

/-- C2 counterexample: the claim quantifies over every graph containing
exp2(mul(x, const)) with no protection proviso, but on a containing
graph whose constant node (node 1) is in no_delete the pass skips the
match: the graph is returned unchanged and mul, the constant node and
exp2 (node 3) are still present. -/
theorem c2_counterexample_protected_match_not_fused :
    (⟨1, 2, 3⟩ : ExpBinding) ∈
      expBindings (scenarioB 0 0 0 0 0 0 0 0 0 0 [1]) ∧
    expCompile (some 0) (scenarioB 0 0 0 0 0 0 0 0 0 0 [1]) =
      some (scenarioB 0 0 0 0 0 0 0 0 0 0 [1]) ∧
    lookupOp (scenarioB 0 0 0 0 0 0 0 0 0 0 [1]) 3 = some .metalExp2 :=
  ⟨by decide, by decide, by decide⟩

/-- C2 amended: for every graph and every match of the exp pattern the
pass actually applies (matches with a protected node are skipped), the
applied rewrite, with the fresh node id outside the existing nodes and
edges and with the found non-constant source of mul and exp2's consumers
outside the deleted set, removes exactly mul, the constant node and exp2
and no others, adds exactly one new MetalExp node, whose sole input edge
comes from that source with slot 0 and the shape of its edge into mul,
and every edge that previously left exp2 now leaves the new node with
destination, slot and shape preserved; on the Scenario B family the full
pass produces exactly the fused graph. -/
theorem c2_amended_exp_fusion :
    (∀ (dev : Nat) (g : Graph) (b2 : ExpBinding) (g2 : Graph) (s : Nat × Nat),
      expFirstMatch g = some b2 →
      (getSources g b2.mul).find? (fun p => p.1 != b2.constant) = some s →
      applyExp dev g b2 = some g2 →
      g.edges.all (fun e => e.src != g.next_id && e.dst != g.next_id) = true →
      s.1 ≠ g.next_id → s.1 ≠ b2.exp2 →
      memb s.1 [b2.mul, b2.constant, b2.exp2] = false →
      memb g.next_id [b2.mul, b2.constant, b2.exp2] = false →
      g.edges.all (fun e => !(e.src == b2.exp2) ||
        !(memb e.dst [b2.mul, b2.constant, b2.exp2])) = true →
      g2.nodes = g.nodes.filter (fun p =>
        !(memb p.1 [b2.mul, b2.constant, b2.exp2]))
        ++ [(g.next_id, Op.metalExp dev)] ∧
      g2.edges.filter (fun e => e.dst == g.next_id) =
        [Edge.mk s.1 g.next_id 0 s.2] ∧
      outgoingTriples g2 g.next_id = outgoingTriples g b2.exp2) ∧
    (∀ t u1 u2 shx shc shm s1 s2 h1 h2 d : Nat,
      expCompile (some d) (scenarioB t u1 u2 shx shc shm s1 s2 h1 h2 []) =
      some { nodes := [(0, .other t), (4, .other u1), (5, .other u2),
                       (6, .metalExp d)],
             edges := [⟨6, 4, s1, h1⟩, ⟨6, 5, s2, h2⟩, ⟨0, 6, 0, shx⟩],
             no_delete := [], to_retrieve := [], id_remap := [],
             next_id := 7 }) := by
  constructor
  · intro dev g b2 g2 s hfm hfind h hedges hs_nid hs_exp hs_del hnid_del hcons_all
    have hsrc : ∀ e ∈ g.edges, e.src ≠ g.next_id := by
      intro e he
      have h2 := (List.all_eq_true.1 hedges) e he
      rw [Bool.and_eq_true] at h2
      simpa using h2.1
    have hdst : ∀ e ∈ g.edges, e.dst ≠ g.next_id := by
      intro e he
      have h2 := (List.all_eq_true.1 hedges) e he
      rw [Bool.and_eq_true] at h2
      simpa using h2.2
    have hcons : ∀ e ∈ g.edges, e.src = b2.exp2 →
        memb e.dst [b2.mul, b2.constant, b2.exp2] = false := by
      intro e he hsrc2
      have h2 := (List.all_eq_true.1 hcons_all) e he
      rw [hsrc2] at h2
      simpa using h2
    refine ⟨applyExp_nodes_eq h hnid_del,
      applyExp_incoming h hfind hdst hs_exp hs_del hnid_del,
      (applyExp_outgoing h hfind hsrc hs_nid hs_exp hnid_del hcons).1⟩
  · intro t u1 u2 shx shc shm s1 s2 h1 h2 d
    rfl

/-- C2 amended witness: on the concrete Scenario B instance, the new
MetalExp node (id 6) has exactly one input edge, coming from x (node 0). -/
theorem c2_amended_exp_fusion_witness :
    ({ nodes := [(0, .other 0), (4, .other 0), (5, .other 0),
                 (6, .metalExp 0)],
       edges := [⟨6, 4, 0, 0⟩, ⟨6, 5, 0, 0⟩, ⟨0, 6, 0, 0⟩],
       no_delete := [], to_retrieve := [], id_remap := [],
       next_id := 7 } : Graph).edges.filter (fun e => e.dst == 6) =
    [Edge.mk 0 6 0 0] :=
  (c2_amended_exp_fusion.1 0 (scenarioB 0 0 0 0 0 0 0 0 0 0 [])
    ⟨1, 2, 3⟩
    { nodes := [(0, .other 0), (4, .other 0), (5, .other 0), (6, .metalExp 0)],
      edges := [⟨6, 4, 0, 0⟩, ⟨6, 5, 0, 0⟩, ⟨0, 6, 0, 0⟩],
      no_delete := [], to_retrieve := [], id_remap := [], next_id := 7 }
    (0, 0)
    (by decide) (by decide) (by decide) (by decide) (by decide) (by decide)
    (by decide) (by decide) (by decide)).2.1

/-- C3 counterexample: the claim says a binding is skipped entirely when
ANY non-surviving matched node, including the terminal sin, is
protected.  On Scenario A with no_delete = [5] (the sin node), the cos
pass does not skip: it performs the rewrite, deletes node 5 and migrates
the protected reference to the new node 8. -/
theorem c3_counterexample_sin_protected_not_skipped :
    (5 : Nat) ∈ (scenarioA 0 0 0 0 0 0 0 0 0 0 0 0 [5]).no_delete ∧
    lookupOp (scenarioA 0 0 0 0 0 0 0 0 0 0 0 0 [5]) 5 = some .metalSin ∧
    cosCompile (some 0) (scenarioA 0 0 0 0 0 0 0 0 0 0 0 0 [5]) =
      some { nodes := [(0, .other 0), (6, .other 0), (7, .other 0),
                       (8, .metalCos 0)],
             edges := [⟨8, 6, 0, 0⟩, ⟨8, 7, 0, 0⟩, ⟨0, 8, 0, 0⟩],
             no_delete := [8], to_retrieve := [], id_remap := [],
             next_id := 9 } :=
  ⟨by decide, by decide, by decide⟩

/-- C3 amended: a binding is skipped when a node the pass actually checks
is protected: for the cos pass the check covers only const_neg_one,
const_pi, mul and add (not the terminal sin, whose protected status is
migrated instead); for the exp pass it covers all three non-surviving
nodes constant, mul and exp2.  Every binding the loop applies passes its
check, and when every candidate binding is protected the pass leaves the
graph untouched. -/
theorem c3_amended_protection_skip :
    (∀ (g : Graph) (b2 : CosBinding), cosFirstMatch g = some b2 →
      memb b2.const_neg_one g.no_delete = false ∧
      memb b2.const_pi g.no_delete = false ∧
      memb b2.mul g.no_delete = false ∧
      memb b2.add g.no_delete = false) ∧
    (∀ (g : Graph) (b2 : ExpBinding), expFirstMatch g = some b2 →
      memb b2.constant g.no_delete = false ∧
      memb b2.mul g.no_delete = false ∧
      memb b2.exp2 g.no_delete = false) ∧
    (∀ (d : Nat) (g : Graph),
      (cosBindings g).all (fun b2 => cosProtected g b2) = true →
      cosCompile (some d) g = some g) ∧
    (∀ (d : Nat) (g : Graph),
      (expBindings g).all (fun b2 => expProtected g b2) = true →
      expCompile (some d) g = some g) := by
  refine ⟨?_, ?_, ?_, ?_⟩
  · intro g b2 h
    have hp := List.find?_some h
    have hp2 : cosProtected g b2 = false := by simpa using hp
    unfold cosProtected at hp2
    simp only [Bool.or_eq_false_iff] at hp2
    exact ⟨hp2.1.1.1, hp2.1.1.2, hp2.1.2, hp2.2⟩
  · intro g b2 h
    have hp := List.find?_some h
    have hp2 : expProtected g b2 = false := by simpa using hp
    unfold expProtected at hp2
    simp only [Bool.or_eq_false_iff] at hp2
    exact ⟨hp2.1.1, hp2.1.2, hp2.2⟩
  · intro d g hall
    have hnone : cosFirstMatch g = none := by
      unfold cosFirstMatch
      rw [List.find?_eq_none]
      intro b2 hb2
      have := (List.all_eq_true.1 hall) b2 hb2
      simp [this]
    unfold cosCompile
    exact cosLoop_of_none hnone
  · intro d g hall
    have hnone : expFirstMatch g = none := by
      unfold expFirstMatch
      rw [List.find?_eq_none]
      intro b2 hb2
      have := (List.all_eq_true.1 hall) b2 hb2
      simp [this]
    unfold expCompile
    exact expLoop_of_none hnone

/-- C3 amended witness: on Scenario A with the mul node protected, the
single candidate binding is protected and the cos pass leaves the graph
unchanged. -/
theorem c3_amended_protection_skip_witness :
    ((cosBindings (scenarioA 0 0 0 0 0 0 0 0 0 0 0 0 [3])).all
      (fun b2 => cosProtected (scenarioA 0 0 0 0 0 0 0 0 0 0 0 0 [3]) b2) = true) ∧
    cosCompile (some 0) (scenarioA 0 0 0 0 0 0 0 0 0 0 0 0 [3]) =
      some (scenarioA 0 0 0 0 0 0 0 0 0 0 0 0 [3]) :=
  ⟨by decide, c3_amended_protection_skip.2.2.1 0
    (scenarioA 0 0 0 0 0 0 0 0 0 0 0 0 [3]) (by decide)⟩

/-- C4: for every applied rewrite in either pass, if the terminal matched
node's id (sin for the cos pass, exp2 for the exp pass) is in the
retrieval set, the protected set, or the identity remap table before the
rewrite, then afterwards every occurrence has been replaced by the new
node's id: the new id is present and the old id is absent from that set
or table (with the new id g.next_id fresh, i.e. distinct from the old). -/
theorem c4_reference_migration :
    (∀ (dev : Nat) (g : Graph) (b2 : CosBinding) (g2 : Graph),
      applyCos dev g b2 = some g2 → b2.sin ≠ g.next_id →
      (b2.sin ∈ g.to_retrieve →
        g.next_id ∈ g2.to_retrieve ∧ b2.sin ∉ g2.to_retrieve) ∧
      (b2.sin ∈ g.no_delete →
        g.next_id ∈ g2.no_delete ∧ b2.sin ∉ g2.no_delete) ∧
      (occursInRemap b2.sin g.id_remap = true →
        occursInRemap g.next_id g2.id_remap = true ∧
        occursInRemap b2.sin g2.id_remap = false)) ∧
    (∀ (dev : Nat) (g : Graph) (b2 : ExpBinding) (g2 : Graph),
      applyExp dev g b2 = some g2 → b2.exp2 ≠ g.next_id →
      (b2.exp2 ∈ g.to_retrieve →
        g.next_id ∈ g2.to_retrieve ∧ b2.exp2 ∉ g2.to_retrieve) ∧
      (b2.exp2 ∈ g.no_delete →
        g.next_id ∈ g2.no_delete ∧ b2.exp2 ∉ g2.no_delete) ∧
      (occursInRemap b2.exp2 g.id_remap = true →
        occursInRemap g.next_id g2.id_remap = true ∧
        occursInRemap b2.exp2 g2.id_remap = false)) := by
  constructor
  · intro dev g b2 g2 h hne
    have ht := applyCos_to_retrieve h
    have hn := applyCos_no_delete h
    have hr := applyCos_id_remap h
    refine ⟨?_, ?_, ?_⟩
    · intro hmem
      rw [ht]
      exact ⟨mem_map_replace hmem, not_mem_map_replace hne⟩
    · intro hmem
      rw [hn]
      exact ⟨mem_map_replace hmem, not_mem_map_replace hne⟩
    · intro hocc
      rw [hr]
      exact ⟨occurs_replace hocc, not_occurs_replace hne⟩
  · intro dev g b2 g2 h hne
    have ht := applyExp_to_retrieve h
    have hn := applyExp_no_delete h
    have hr := applyExp_id_remap h
    refine ⟨?_, ?_, ?_⟩
    · intro hmem
      rw [ht]
      exact ⟨mem_map_replace hmem, not_mem_map_replace hne⟩
    · intro hmem
      rw [hn]
      exact ⟨mem_map_replace hmem, not_mem_map_replace hne⟩
    · intro hocc
      rw [hr]
      exact ⟨occurs_replace hocc, not_occurs_replace hne⟩

/-- C4 witness: on a Scenario A instance whose retrieval set, protected
set and remap table all reference sin (node 5), applying the cos rewrite
replaces every occurrence of 5 by the new id 8 in the retrieval set, the
protected set and the remap table. -/
theorem c4_reference_migration_witness :
    ((8 : Nat) ∈ [(8 : Nat)] ∧ (5 : Nat) ∉ [(8 : Nat)]) ∧
    ((8 : Nat) ∈ [(8 : Nat)] ∧ (5 : Nat) ∉ [(8 : Nat)]) ∧
    (occursInRemap 8 [(9, 8)] = true ∧ occursInRemap 5 [(9, 8)] = false) := by
  have T := c4_reference_migration.1 0
    ({ scenarioA 0 0 0 0 0 0 0 0 0 0 0 0 [5] with
        to_retrieve := [5], id_remap := [(9, 5)] } : Graph)
    ⟨1, 2, 3, 4, 5, 0⟩
    { nodes := [(0, .other 0), (6, .other 0), (7, .other 0), (8, .metalCos 0)],
      edges := [⟨8, 6, 0, 0⟩, ⟨8, 7, 0, 0⟩, ⟨0, 8, 0, 0⟩],
      no_delete := [8], to_retrieve := [8], id_remap := [(9, 8)],
      next_id := 9 }
    (by decide) (by decide)
  exact ⟨T.1 (by decide), T.2.1 (by decide), T.2.2 (by decide)⟩

/-- C5 counterexample: the claim adds that no node other than the
terminal matched node and the new node has its outgoing edges changed.
On Scenario A, the surviving input node x (node 0) is such another node,
yet its outgoing edge set changes from [(3, 0, 0)] (into mul) to
[(8, 0, 0)] (into the new MetalCos node) across the applied rewrite. -/
theorem c5_counterexample_input_node_outgoing_changes :
    cosFirstMatch (scenarioA 0 0 0 0 0 0 0 0 0 0 0 0 []) =
      some ⟨1, 2, 3, 4, 5, 0⟩ ∧
    applyCos 0 (scenarioA 0 0 0 0 0 0 0 0 0 0 0 0 []) ⟨1, 2, 3, 4, 5, 0⟩ =
      some { nodes := [(0, .other 0), (6, .other 0), (7, .other 0),
                       (8, .metalCos 0)],
             edges := [⟨8, 6, 0, 0⟩, ⟨8, 7, 0, 0⟩, ⟨0, 8, 0, 0⟩],
             no_delete := [], to_retrieve := [], id_remap := [],
             next_id := 9 } ∧
    outgoingTriples (scenarioA 0 0 0 0 0 0 0 0 0 0 0 0 []) 0 = [(3, 0, 0)] ∧
    outgoingTriples ({ nodes := [(0, .other 0), (6, .other 0), (7, .other 0),
                         (8, .metalCos 0)],
                       edges := [⟨8, 6, 0, 0⟩, ⟨8, 7, 0, 0⟩, ⟨0, 8, 0, 0⟩],
                       no_delete := [], to_retrieve := [], id_remap := [],
                       next_id := 9 } : Graph) 0 = [(8, 0, 0)] :=
  ⟨by decide, by decide, by decide, by decide⟩

/-- C5 amended: for every applied rewrite in either pass (with fresh new
id and with the terminal node's consumers outside the deleted set), the
list of outgoing (destination, slot, shape) triples of the terminal
matched node before the rewrite equals, in order, that of the new node
after the rewrite; every node other than the terminal node, the new node
and the surviving input node keeps its outgoing edges except for losing
those whose destination was deleted; and the surviving input node
additionally gains the single input edge of the new node. -/
theorem c5_amended_outgoing_edges :
    (∀ (dev : Nat) (g : Graph) (b2 : CosBinding) (g2 : Graph),
      applyCos dev g b2 = some g2 →
      g.edges.all (fun e => e.src != g.next_id) = true →
      b2.x ≠ g.next_id → b2.x ≠ b2.sin →
      memb g.next_id [b2.mul, b2.add, b2.const_neg_one, b2.const_pi, b2.sin] = false →
      g.edges.all (fun e => !(e.src == b2.sin) ||
        !(memb e.dst [b2.mul, b2.add, b2.const_neg_one, b2.const_pi, b2.sin])) = true →
      outgoingTriples g2 g.next_id = outgoingTriples g b2.sin ∧
      (∀ n, n ≠ b2.sin → n ≠ g.next_id → n ≠ b2.x →
        memb n [b2.mul, b2.add, b2.const_neg_one, b2.const_pi, b2.sin] = false →
        outgoingTriples g2 n = (outgoingTriples g n).filter
          (fun tr => !(memb tr.1
            [b2.mul, b2.add, b2.const_neg_one, b2.const_pi, b2.sin]))) ∧
      (memb b2.x [b2.mul, b2.add, b2.const_neg_one, b2.const_pi, b2.sin] = false →
        ∃ sh, mulInputShape g b2.mul = some sh ∧
          outgoingTriples g2 b2.x = (outgoingTriples g b2.x).filter
            (fun tr => !(memb tr.1
              [b2.mul, b2.add, b2.const_neg_one, b2.const_pi, b2.sin]))
            ++ [(g.next_id, 0, sh)])) ∧
    (∀ (dev : Nat) (g : Graph) (b2 : ExpBinding) (g2 : Graph) (s : Nat × Nat),
      applyExp dev g b2 = some g2 →
      (getSources g b2.mul).find? (fun p => p.1 != b2.constant) = some s →
      g.edges.all (fun e => e.src != g.next_id) = true →
      s.1 ≠ g.next_id → s.1 ≠ b2.exp2 →
      memb g.next_id [b2.mul, b2.constant, b2.exp2] = false →
      g.edges.all (fun e => !(e.src == b2.exp2) ||
        !(memb e.dst [b2.mul, b2.constant, b2.exp2])) = true →
      outgoingTriples g2 g.next_id = outgoingTriples g b2.exp2 ∧
      (∀ n, n ≠ b2.exp2 → n ≠ g.next_id → n ≠ s.1 →
        memb n [b2.mul, b2.constant, b2.exp2] = false →
        outgoingTriples g2 n = (outgoingTriples g n).filter
          (fun tr => !(memb tr.1 [b2.mul, b2.constant, b2.exp2]))) ∧
      (memb s.1 [b2.mul, b2.constant, b2.exp2] = false →
        outgoingTriples g2 s.1 = (outgoingTriples g s.1).filter
          (fun tr => !(memb tr.1 [b2.mul, b2.constant, b2.exp2]))
          ++ [(g.next_id, 0, s.2)])) := by
  constructor
  · intro dev g b2 g2 h hallf hx_nid hx_sin hnid_del hallc
    have hfresh : ∀ e ∈ g.edges, e.src ≠ g.next_id := by
      intro e he
      have := (List.all_eq_true.1 hallf) e he
      simpa using this
    have hcons : ∀ e ∈ g.edges, e.src = b2.sin →
        memb e.dst [b2.mul, b2.add, b2.const_neg_one, b2.const_pi, b2.sin] = false := by
      intro e he hsrc
      have h2 := (List.all_eq_true.1 hallc) e he
      rw [hsrc] at h2
      simpa using h2
    exact applyCos_outgoing h hfresh hx_nid hx_sin hnid_del hcons
  · intro dev g b2 g2 s h hm hallf hs_nid hs_exp hnid_del hallc
    have hfresh : ∀ e ∈ g.edges, e.src ≠ g.next_id := by
      intro e he
      have := (List.all_eq_true.1 hallf) e he
      simpa using this
    have hcons : ∀ e ∈ g.edges, e.src = b2.exp2 →
        memb e.dst [b2.mul, b2.constant, b2.exp2] = false := by
      intro e he hsrc
      have h2 := (List.all_eq_true.1 hallc) e he
      rw [hsrc] at h2
      simpa using h2
    exact applyExp_outgoing h hm hfresh hs_nid hs_exp hnid_del hcons

/-- C5 amended witness: on Scenario A, the outgoing triples of the new
node 8 after the rewrite equal those of sin (node 5) before it. -/
theorem c5_amended_outgoing_edges_witness :
    outgoingTriples ({ nodes := [(0, .other 0), (6, .other 0), (7, .other 0),
                         (8, .metalCos 0)],
                       edges := [⟨8, 6, 0, 0⟩, ⟨8, 7, 0, 0⟩, ⟨0, 8, 0, 0⟩],
                       no_delete := [], to_retrieve := [], id_remap := [],
                       next_id := 9 } : Graph) 8 =
    outgoingTriples (scenarioA 0 0 0 0 0 0 0 0 0 0 0 0 []) 5 :=
  (c5_amended_outgoing_edges.1 0 (scenarioA 0 0 0 0 0 0 0 0 0 0 0 0 [])
    ⟨1, 2, 3, 4, 5, 0⟩
    { nodes := [(0, .other 0), (6, .other 0), (7, .other 0), (8, .metalCos 0)],
      edges := [⟨8, 6, 0, 0⟩, ⟨8, 7, 0, 0⟩, ⟨0, 8, 0, 0⟩],
      no_delete := [], to_retrieve := [], id_remap := [], next_id := 9 }
    (by decide) (by decide) (by decide) (by decide) (by decide) (by decide)).1

/-- C6: running either fusion pass twice in succession (with the same
ambient device) yields after the second run the same graph as after the
first: the second run finds no further match and performs no mutation. -/
theorem c6_pass_idempotent :
    (∀ (d : Nat) (g g2 : Graph),
      cosCompile (some d) g = some g2 → cosCompile (some d) g2 = some g2) ∧
    (∀ (d : Nat) (g g2 : Graph),
      expCompile (some d) g = some g2 → expCompile (some d) g2 = some g2) := by
  constructor
  · intro d g g2 h
    unfold cosCompile at h ⊢
    have hq := cosLoop_quiescent g.nodes.length g g2 (le_refl _) h
    exact cosLoop_of_none hq
  · intro d g g2 h
    unfold expCompile at h ⊢
    have hq := expLoop_quiescent g.nodes.length g g2 (le_refl _) h
    exact expLoop_of_none hq

/-- C6 witness: on a concrete Scenario A instance, the cos pass produces
a fused graph, and running the pass again on that result returns it
unchanged. -/
theorem c6_pass_idempotent_witness :
    cosCompile (some 0)
      ({ nodes := [(0, .other 0), (6, .other 0), (7, .other 0),
                   (8, .metalCos 0)],
         edges := [⟨8, 6, 0, 0⟩, ⟨8, 7, 0, 0⟩, ⟨0, 8, 0, 0⟩],
         no_delete := [], to_retrieve := [], id_remap := [],
         next_id := 9 } : Graph) =
    some ({ nodes := [(0, .other 0), (6, .other 0), (7, .other 0),
                      (8, .metalCos 0)],
            edges := [⟨8, 6, 0, 0⟩, ⟨8, 7, 0, 0⟩, ⟨0, 8, 0, 0⟩],
            no_delete := [], to_retrieve := [], id_remap := [],
            next_id := 9 } : Graph) :=
  c6_pass_idempotent.1 0 (scenarioA 0 0 0 0 0 0 0 0 0 0 0 0 [])
    ({ nodes := [(0, .other 0), (6, .other 0), (7, .other 0),
                 (8, .metalCos 0)],
       edges := [⟨8, 6, 0, 0⟩, ⟨8, 7, 0, 0⟩, ⟨0, 8, 0, 0⟩],
       no_delete := [], to_retrieve := [], id_remap := [],
       next_id := 9 } : Graph)
    (by decide)

/-- C7: every binding the orchestration applies is obtained by
re-invoking the matcher on the current graph, and all of its captured
node ids are live in exactly the graph the rewrite built from it reads
and mutates, so no applied binding ever references an id deleted earlier
in the same run. -/
theorem c7_binding_liveness :
    (∀ (g : Graph) (b2 : CosBinding), cosFirstMatch g = some b2 →
      (lookupOp g b2.sin).isSome = true ∧ (lookupOp g b2.add).isSome = true ∧
      (lookupOp g b2.mul).isSome = true ∧
      (lookupOp g b2.const_neg_one).isSome = true ∧
      (lookupOp g b2.const_pi).isSome = true ∧
      (lookupOp g b2.x).isSome = true) ∧
    (∀ (g : Graph) (b2 : ExpBinding), expFirstMatch g = some b2 →
      (lookupOp g b2.exp2).isSome = true ∧ (lookupOp g b2.mul).isSome = true ∧
      (lookupOp g b2.constant).isSome = true) := by
  constructor
  · intro g b2 h
    obtain ⟨hsin, hadd, hmul, hneg, hpi, hx⟩ :=
      cosBindings_sound (cosFirstMatch_mem h)
    obtain ⟨o1, hl1, -⟩ := isTy_lookup hsin
    obtain ⟨o2, hl2, -⟩ := isTy_lookup hadd
    obtain ⟨o3, hl3, -⟩ := isTy_lookup hmul
    have hl4 := isConstBits_lookup hneg
    have hl5 := isConstBits_lookup hpi
    exact ⟨by rw [hl1]; rfl, by rw [hl2]; rfl, by rw [hl3]; rfl,
      by rw [hl4]; rfl, by rw [hl5]; rfl, hx⟩
  · intro g b2 h
    obtain ⟨hexp, hmul, hconst⟩ := expBindings_sound (expFirstMatch_mem h)
    obtain ⟨o1, hl1, -⟩ := isTy_lookup hexp
    obtain ⟨o2, hl2, -⟩ := isTy_lookup hmul
    have hl3 := isConstBits_lookup hconst
    exact ⟨by rw [hl1]; rfl, by rw [hl2]; rfl, by rw [hl3]; rfl⟩

/-- C7 witness: on Scenario A the first applied binding captures nodes
1, 2, 3, 4, 5 and 0, all live in the graph the rewrite operates on. -/
theorem c7_binding_liveness_witness :
    (lookupOp (scenarioA 0 0 0 0 0 0 0 0 0 0 0 0 []) 5).isSome = true ∧
    (lookupOp (scenarioA 0 0 0 0 0 0 0 0 0 0 0 0 []) 4).isSome = true ∧
    (lookupOp (scenarioA 0 0 0 0 0 0 0 0 0 0 0 0 []) 3).isSome = true ∧
    (lookupOp (scenarioA 0 0 0 0 0 0 0 0 0 0 0 0 []) 1).isSome = true ∧
    (lookupOp (scenarioA 0 0 0 0 0 0 0 0 0 0 0 0 []) 2).isSome = true ∧
    (lookupOp (scenarioA 0 0 0 0 0 0 0 0 0 0 0 0 []) 0).isSome = true :=
  c7_binding_liveness.1 (scenarioA 0 0 0 0 0 0 0 0 0 0 0 0 [])
    ⟨1, 2, 3, 4, 5, 0⟩ (by decide)

/-- C8 counterexample: both compile functions read the ambient
system-default device rather than an explicit argument, and the result
of the cos pass on the same graph differs under two different ambient
devices, contradicting device-independence of the pass result. -/
theorem c8_counterexample_ambient_device_dependence :
    cosCompile (some 0) (scenarioA 0 0 0 0 0 0 0 0 0 0 0 0 []) ≠
    cosCompile (some 1) (scenarioA 0 0 0 0 0 0 0 0 0 0 0 0 []) :=
  by decide

set_option maxHeartbeats 2000000 in
/-- C8 amended: each pass reads the ambient system-default device and
unwraps it (compilation fails outright when no ambient device exists),
and the ambient device influences the pass result only through the
device payload recorded in the newly created fused nodes: on the
scenario families, results under any two ambient devices agree after
erasing device payloads. -/
theorem c8_amended_ambient_device :
    (∀ g : Graph, cosCompile none g = none) ∧
    (∀ g : Graph, expCompile none g = none) ∧
    (∀ d1 d2 t u1 u2 shx shc1 shm shc2 sha s1 s2 h1 h2 : Nat,
      (cosCompile (some d1)
        (scenarioA t u1 u2 shx shc1 shm shc2 sha s1 s2 h1 h2 [])).map stripGraph =
      (cosCompile (some d2)
        (scenarioA t u1 u2 shx shc1 shm shc2 sha s1 s2 h1 h2 [])).map stripGraph) ∧
    (∀ d1 d2 t u1 u2 shx shc shm s1 s2 h1 h2 : Nat,
      (expCompile (some d1)
        (scenarioB t u1 u2 shx shc shm s1 s2 h1 h2 [])).map stripGraph =
      (expCompile (some d2)
        (scenarioB t u1 u2 shx shc shm s1 s2 h1 h2 [])).map stripGraph) :=
  ⟨fun _ => rfl, fun _ => rfl,
   fun _ _ _ _ _ _ _ _ _ _ _ _ _ _ => rfl,
   fun _ _ _ _ _ _ _ _ _ _ _ _ => rfl⟩

/-- C9: the PartialEq implementations of the MetalCos and MetalExp
operator types return false for every pair of values, including a value
compared with itself, so equality on these types is never reflexive. -/
theorem c9_operator_eq_never_true :
    (∀ a b2 : MetalCosVal, metalCosEq a b2 = false) ∧
    (∀ a : MetalCosVal, metalCosEq a a = false) ∧
    (∀ a b2 : MetalExpVal, metalExpEq a b2 = false) ∧
    (∀ a : MetalExpVal, metalExpEq a a = false) :=
  ⟨fun _ _ => rfl, fun _ => rfl, fun _ _ => rfl, fun _ => rfl⟩

/-- C10: on the graph exp2(mul(c, c)) whose mul node has both input
edges from the same constant node with payload f16 of 1 / ln 2, the exp
pattern matches and passes the protection check, and the pass then
panics (modelled as none) on the unwrap while searching for a source of
mul distinct from the constant, instead of skipping the match. -/
theorem c10_exp_shared_constant_panic :
    expFirstMatch gSharedConst = some ⟨0, 1, 2⟩ ∧
    expCompile (some 0) gSharedConst = none :=
  ⟨by decide, by decide⟩
